import Mathlib

/-
Verification development for the ObjLoader repository (OBJ/MTL mesh loader).

The C++ sources under src/obj are shallowly embedded here:
  * 32-bit unsigned arithmetic (glm::uvec3, unsigned int) is Nat with explicit
    reduction modulo 2^32; size_t arithmetic is Nat modulo 2^64;
  * IEEE floats are idealised as exact rationals (ℚ); every concrete input used
    below is chosen so that the compared quantities are far from the decision
    boundaries, hence the verdicts agree with float evaluation;
  * the tangent-space stage (obj::CalcTangentSpace), which divides by vector
    norms, is embedded over ℝ, where division by zero yields 0 (the C++ float
    evaluation yields NaN at exactly the same inputs; both violate unit length);
  * fallible operations (std::ifstream open, std::stoi, out-of-bounds vector
    access in ParseObj) are embedded with Option/Except.
-/

namespace Obj

/-- Modulus of 32-bit unsigned arithmetic (`unsigned int`, `glm::uvec3`). -/
def u32 : Nat := 4294967296

/-- Modulus of 64-bit `size_t` arithmetic (used by the vertex hash). -/
def u64 : Nat := 18446744073709551616

/-- Subtraction of 32-bit unsigned values, wrapping modulo 2^32
(the effect of `operator-` on `glm::uvec3` components and of `--u`). -/
def usub (a b : Nat) : Nat := (a % u32 + (u32 - b % u32)) % u32

/-- A triple of 32-bit unsigned values: `glm::uvec3`. -/
structure UVec3 where
  x : Nat
  y : Nat
  z : Nat
deriving DecidableEq, Repr

/-- Componentwise wrapping subtraction on `glm::uvec3`. -/
def UVec3.sub (a b : UVec3) : UVec3 := ⟨usub a.x b.x, usub a.y b.y, usub a.z b.z⟩

/-- Componentwise decrement `--u` (each component wraps modulo 2^32;
a raw component 0, i.e. a missing `vt`/`vn` slot, becomes 2^32 − 1). -/
def UVec3.dec (a : UVec3) : UVec3 := a.sub ⟨1, 1, 1⟩

/-- Componentwise maximum, `glm::max` on `glm::uvec3`. -/
def UVec3.max (a b : UVec3) : UVec3 := ⟨Nat.max a.x b.x, Nat.max a.y b.y, Nat.max a.z b.z⟩

/-- The zero triple `glm::uvec3{0}`. -/
def UVec3.zero : UVec3 := ⟨0, 0, 0⟩

/-- A 2-component float vector (`glm::vec2`), floats idealised as ℚ. -/
structure Vec2 where
  x : ℚ
  y : ℚ
deriving DecidableEq, Repr

/-- A 3-component float vector (`glm::vec3`). -/
structure Vec3 where
  x : ℚ
  y : ℚ
  z : ℚ
deriving DecidableEq, Repr

/-- A 4-component float vector (`glm::vec4`). -/
structure Vec4 where
  x : ℚ
  y : ℚ
  z : ℚ
  w : ℚ
deriving DecidableEq, Repr

def Vec2.zero : Vec2 := ⟨0, 0⟩
def Vec3.zero : Vec3 := ⟨0, 0, 0⟩
def Vec4.zero : Vec4 := ⟨0, 0, 0, 0⟩

/-- Componentwise `glm::min(vec2, float)`: the scalar is splatted to both lanes
(this is how `ParseObj` updates `uvMin` with the single scalar `x`). -/
def Vec2.minScalar (a : Vec2) (s : ℚ) : Vec2 := ⟨min a.x s, min a.y s⟩

/-- Componentwise `glm::max(vec2, float)` with a splatted scalar. -/
def Vec2.maxScalar (a : Vec2) (s : ℚ) : Vec2 := ⟨max a.x s, max a.y s⟩

def Vec2.sub (a b : Vec2) : Vec2 := ⟨a.x - b.x, a.y - b.y⟩

/-- Largest finite float, `FLT_MAX` (= 2^128 − 2^104, exact). -/
def fltMax : ℚ := 340282346638528859811704183484516925440

/-- Smallest positive normal float, `FLT_MIN` (= 2^−126, exact). -/
def fltMin : ℚ := 1 / 85070591730234615865843651857942052864

/-- A vertex as assembled by the loader (`obj::Vertex`):
position, normal, texture coordinates and a vec4 tangent whose w channel
stores the ±1 handedness. -/
structure Vertex where
  position : Vec3 := Vec3.zero
  normal : Vec3 := Vec3.zero
  texCoords : Vec2 := Vec2.zero
  tangent : Vec4 := Vec4.zero
deriving DecidableEq, Repr

/-- A material record (`obj::Material` as used by ObjHelpers.cpp: four
texture-name lists populated by `ParseMtl` plus the `isTiled` flag written by
`ParseObj`). -/
structure Material where
  name : String := ""
  diffuseName : List String := []
  specularName : List String := []
  normalName : List String := []
  heightName : List String := []
  isTiled : Bool := false
deriving DecidableEq, Repr

/-- A mesh (`obj::Mesh`): identification data plus parallel vertex and
index lists. -/
structure Mesh where
  name : String := ""
  material : String := ""
  lodLevel : Nat := 0
  meshNumber : Int := -1
  vertices : List Vertex := []
  indices : List Nat := []
deriving DecidableEq, Repr

/-- Parser scratch for one `o` block (`obj::TempMeshes`). -/
structure TempMesh where
  vertices : List Vec3 := []
  texCoords : List Vec2 := []
  normals : List Vec3 := []
  faceIndices : List UVec3 := []
deriving DecidableEq, Repr

/-- Every index of the mesh is strictly below its vertex count (the §3
invariant of the specification). -/
def boundsOk (m : Mesh) : Prop := ∀ i ∈ m.indices, i < m.vertices.length

instance (m : Mesh) : Decidable (boundsOk m) := by
  unfold boundsOk; infer_instance

/- ### Face-token parsing (`ParseObj`, lines 266–298)

`f` lines are tokenised by repeated `std::strtoul` calls separated by `'/'`
tests and space skipping, capped at four tokens per line. -/

/-- Digit run consumed by `std::strtoul` (base 10): returns the accumulated
value and the rest of the input. `strtoul` skips leading spaces. -/
def strtoulGo : List Char → Nat → Nat × List Char
  | [], acc => (acc, [])
  | c :: cs, acc =>
    if c.isDigit then strtoulGo cs (acc * 10 + (c.toNat - 48)) else (acc, c :: cs)

/-- Model of `std::strtoul(ptr, &ptr, 10)` on the remaining characters of an
`f` line: leading spaces are skipped, a (possibly empty) digit run is
consumed, and the value is returned (0 when no digit is present). -/
def strtoul (s : List Char) : Nat × List Char :=
  strtoulGo (s.dropWhile (· == ' ')) 0

/-- One face token `V[/T[/N]]`: each missing slot is left at its raw value 0.
The parsed values are narrowed to `unsigned int`, i.e. reduced mod 2^32. -/
def parseFaceToken (s : List Char) : UVec3 × List Char :=
  let (v, r1) := strtoul s
  match r1 with
  | '/' :: r2 =>
    let (vt, r3) := strtoul r2
    match r3 with
    | '/' :: r4 =>
      let (vn, r5) := strtoul r4
      (⟨v % u32, vt % u32, vn % u32⟩, r5)
    | _ => (⟨v % u32, vt % u32, 0⟩, r3)
  | _ => (⟨v % u32, 0, 0⟩, r1)

/-- The raw (1-based, pre-rebasing) token triples of one `f` line: the loop
`while (ptr < ptrEnd && faceSize < 4)` parses at most four tokens, skipping
spaces after each. `fuel` is the remaining face-array capacity. -/
def rawTokensGo : Nat → List Char → List UVec3
  | 0, _ => []
  | _ + 1, [] => []
  | fuel + 1, s@(_ :: _) =>
    let (u, r) := parseFaceToken s
    u :: rawTokensGo fuel (r.dropWhile (· == ' '))

/-- Raw token triples of the text after the `"f "` of a face line. -/
def rawFaceTokens (s : List Char) : List UVec3 := rawTokensGo 4 s

/- ### The second pass of `obj::ParseObj` (ObjHelpers.cpp, lines 172–318)

One line of the OBJ buffer, after the prefix dispatch of the byte walker.
The float payloads of `v `/`vt`/`vn` lines are the (successful) results of
`ParseFloat`; `f` lines keep their raw characters because their tokenisation
is part of the modelled code. -/
inductive ObjLine where
  | o (name : String)
  | v (x y z : ℚ)
  | vt (u v : ℚ)
  | vn (x y z : ℚ)
  | usemtl (name : String)
  | mtllib (name : String)
  | f (rest : List Char)
  | other
deriving DecidableEq, Repr

/-- The mutable state threaded through the second pass of `ParseObj`:
`meshCount` starts at −1; `indexOffset`/`maxIndexSeen` drive the per-object
index rebasing; `uvMin`/`uvMax` track texture coordinates for the `isTiled`
flag; `materials` is the per-LOD material vector previously filled by
`ParseMtl`. -/
structure ParseObjState where
  meshCount : Int := -1
  tempMeshes : List TempMesh := []
  meshes : List Mesh := []
  indexOffset : UVec3 := UVec3.zero
  maxIndexSeen : UVec3 := UVec3.zero
  uvMin : Vec2 := ⟨fltMax, fltMax⟩
  uvMax : Vec2 := ⟨-fltMax, -fltMax⟩
  mtlCount : Nat := 0
  materials : List Material := []
  mtlFileName : String := ""
deriving Repr

/-- State at the start of the second pass, with the material vector produced
by `ParseMtl` for this LOD. -/
def initState (mats : List Material) : ParseObjState := { materials := mats }

/-- Guarded write through `t_state.tempMeshes[meshCount]`: in C++ an index
outside the vector is undefined behaviour; the model reports the offending
index. -/
def modifyTempAt (st : ParseObjState) (fn : TempMesh → TempMesh) :
    Except Int ParseObjState :=
  if 0 ≤ st.meshCount ∧ st.meshCount.toNat < st.tempMeshes.length then
    .ok { st with tempMeshes :=
      st.tempMeshes.set st.meshCount.toNat (fn (st.tempMeshes.getD st.meshCount.toNat {})) }
  else .error st.meshCount

/-- Guarded write through `t_meshes[meshCount]`. -/
def modifyMeshAt (st : ParseObjState) (fn : Mesh → Mesh) :
    Except Int ParseObjState :=
  if 0 ≤ st.meshCount ∧ st.meshCount.toNat < st.meshes.length then
    .ok { st with meshes :=
      st.meshes.set st.meshCount.toNat (fn (st.meshes.getD st.meshCount.toNat {})) }
  else .error st.meshCount

/-- Rebased face triple: global decrement to 0-based, then subtraction of the
per-object offset, both wrapping mod 2^32 componentwise. -/
def rebase (off : UVec3) (u : UVec3) : UVec3 := (u.dec).sub off

/-- The stored triples contributed by one face line with raw token triples
`toks` and current offset `off`: triangles are stored as-is, quads are split
along the (0,2) diagonal, other arities contribute nothing. -/
def storedTriples (off : UVec3) (toks : List UVec3) : List UVec3 :=
  match toks.map (rebase off) with
  | [a, b, c] => [a, b, c]
  | [a, b, c, d] => [a, b, c, a, c, d]
  | _ => []

/-- One step of the second pass of `ParseObj` (one line). -/
def parseObjLine (lod : Nat) (st : ParseObjState) : ObjLine → Except Int ParseObjState
  | .o name =>
    .ok { st with
      meshCount := st.meshCount + 1
      tempMeshes := st.tempMeshes ++ [{}]
      meshes := st.meshes ++
        [{ name := name, meshNumber := st.meshCount + 1, lodLevel := lod }]
      indexOffset := st.maxIndexSeen }
  | .v x y z => modifyTempAt st (fun t => { t with vertices := t.vertices ++ [⟨x, y, z⟩] })
  | .vt u v =>
    (modifyTempAt st
      (fun t => { t with texCoords := t.texCoords ++ [⟨u, 1 - v⟩] })).map
      (fun st' => { st' with
        uvMin := st'.uvMin.minScalar u
        uvMax := st'.uvMax.maxScalar (1 - v) })
  | .vn x y z => modifyTempAt st (fun t => { t with normals := t.normals ++ [⟨x, y, z⟩] })
  | .usemtl name =>
    (modifyMeshAt st (fun m => { m with material := name })).map
      (fun st' =>
        let uvRange := st'.uvMax.sub st'.uvMin
        let isTiled := decide (1 < uvRange.x) || decide (1 < uvRange.y)
        { st' with
          materials := st'.materials.set st'.mtlCount
            { st'.materials.getD st'.mtlCount {} with isTiled := isTiled }
          uvMax := ⟨fltMax, fltMax⟩
          uvMin := ⟨fltMin, fltMin⟩
          mtlCount := st'.mtlCount + 1 })
  | .mtllib name => .ok { st with mtlFileName := name }
  | .f rest =>
    let raws := rawFaceTokens rest
    let st' := { st with maxIndexSeen := raws.foldl UVec3.max st.maxIndexSeen }
    let stored := storedTriples st.indexOffset raws
    if stored.isEmpty then .ok st'
    else modifyTempAt st' (fun t => { t with faceIndices := t.faceIndices ++ stored })
  | .other => .ok st

/-- The whole second pass: the lines of the buffer, processed left to right.
An `.error i` result records the first out-of-bounds mesh-container index
(`i = −1` when a data line is hit before any `o` line). -/
def runParseObj (lod : Nat) (st : ParseObjState) : List ObjLine → Except Int ParseObjState
  | [] => .ok st
  | l :: rest => (parseObjLine lod st l).bind (fun st' => runParseObj lod st' rest)

/- ### Vertex quantisation, hashing and tolerance equality
(`obj::Vertex::Quantize`, `obj::VertexHasher`, `obj::VertexEqual`,
ObjHelpers.hpp) -/

/-- Rounding half away from zero, the behaviour of `std::round`. -/
def roundAway (q : ℚ) : ℤ := if 0 ≤ q then ⌊q + 1 / 2⌋ else -⌊-q + 1 / 2⌋

/-- Quantised component: `static_cast<int>(std::round(v * 100000))`. -/
def quantize (q : ℚ) : ℤ := roundAway (q * 100000)

/-- The quantised 12-tuple of a vertex (`Vertex::AsArrayQuantized`):
position, normal, texture coordinates, tangent, in declaration order. -/
def asArrayQuantized (v : Vertex) : List ℤ :=
  [quantize v.position.x, quantize v.position.y, quantize v.position.z,
   quantize v.normal.x, quantize v.normal.y, quantize v.normal.z,
   quantize v.texCoords.x, quantize v.texCoords.y,
   quantize v.tangent.x, quantize v.tangent.y, quantize v.tangent.z,
   quantize v.tangent.w]

/-- `std::hash<int>` (libstdc++): the identity, converted to `size_t`
(negative values sign-extend, i.e. reduce mod 2^64). -/
def hashIntStd (q : ℤ) : Nat := (q % (u64 : ℤ)).toNat

/-- One `hashCombine` step of `VertexHasher::operator()`:
`h ^= hash(q) + 0x9e3779b9 + (h << 6) + (h >> 2)` in `size_t` arithmetic. -/
def hashCombineStep (h : Nat) (q : ℤ) : Nat :=
  Nat.xor h ((hashIntStd q + 2654435769 + h * 64 + h / 4) % u64)

/-- The vertex hash: the twelve quantised components folded through
`hashCombine`, starting from 0. -/
def vertexHash (v : Vertex) : Nat := (asArrayQuantized v).foldl hashCombineStep 0

/-- The `1e-6f` tolerance of `VertexEqual` and `Vertex::operator==`. -/
def tolEps : ℚ := 1 / 1000000

/-- `VertexEqual::operator()`: componentwise `|a − b| < 1e-6` over all twelve
float components (position, normal, texCoords and the full vec4 tangent). -/
def vertexEqual (a b : Vertex) : Bool :=
  decide (|a.position.x - b.position.x| < tolEps) &&
  decide (|a.position.y - b.position.y| < tolEps) &&
  decide (|a.position.z - b.position.z| < tolEps) &&
  decide (|a.normal.x - b.normal.x| < tolEps) &&
  decide (|a.normal.y - b.normal.y| < tolEps) &&
  decide (|a.normal.z - b.normal.z| < tolEps) &&
  decide (|a.texCoords.x - b.texCoords.x| < tolEps) &&
  decide (|a.texCoords.y - b.texCoords.y| < tolEps) &&
  decide (|a.tangent.x - b.tangent.x| < tolEps) &&
  decide (|a.tangent.y - b.tangent.y| < tolEps) &&
  decide (|a.tangent.z - b.tangent.z| < tolEps) &&
  decide (|a.tangent.w - b.tangent.w| < tolEps)

/- ### Vertex deduplication (`obj::JoinIdenticalVertices`, lines 533–608)

The C++ `std::unordered_map<Vertex, unsigned, VertexHasher, VertexEqual>`
lookup finds an entry whose key hashes like the probe and compares equal to it
under `VertexEqual`. The model scans entries in insertion order; the C++ order
within one hash bucket is unspecified, but every concrete input below has at
most one matching candidate, so the verdicts do not depend on that order. -/

/-- A lookup hits an entry with the same hash that is `VertexEqual` to the
probe. -/
def keyMatch (a b : Vertex) : Bool :=
  vertexEqual a b && (vertexHash a == vertexHash b)

/-- Lookup in the model of the `uniqueVertices` hash map. -/
def mapFind : List (Vertex × Nat) → Vertex → Option Nat
  | [], _ => none
  | e :: rest, v => if keyMatch e.1 v then some e.2 else mapFind rest v

/-- The dedup walk over the index list: on a miss the referenced vertex is
appended to the new vertex list at index `newVerts.length`; on a hit the
stored index is reused. -/
def joinGo (vs : List Vertex) :
    List Nat → List (Vertex × Nat) → List Vertex → List Nat →
    List Vertex × List Nat
  | [], _, newVerts, newIdx => (newVerts, newIdx)
  | idx :: rest, entries, newVerts, newIdx =>
    let v := vs.getD idx {}
    match mapFind entries v with
    | none =>
      joinGo vs rest (entries ++ [(v, newVerts.length)]) (newVerts ++ [v])
        (newIdx ++ [newVerts.length])
    | some i => joinGo vs rest entries newVerts (newIdx ++ [i])

/-- Deduplication of one mesh; meshes with an empty vertex list are passed
through untouched. -/
def joinMesh (m : Mesh) : Mesh :=
  if m.vertices.isEmpty then m
  else
    let r := joinGo m.vertices m.indices [] [] []
    { m with vertices := r.1, indices := r.2 }

/-- `obj::JoinIdenticalVertices` over the mesh vector of one LOD. -/
def JoinIdenticalVertices (ms : List Mesh) : List Mesh := ms.map joinMesh

/- ### Mesh assembly (`obj::ConstructVertices`, lines 463–475)

For every face-index triple one vertex is emitted (position at slot x, normal
at slot z, texture coordinates at slot y, tangent zero) together with the
sequential index `i`. An out-of-bounds temp-array read (`vertices[fi.x]` etc.)
is undefined behaviour in C++; the model reads the zero vector there, which is
what claim C5 asserts the code produces for missing slots. -/

/-- Assembly of one mesh from its parser scratch. -/
def constructMesh (t : TempMesh) (m : Mesh) : Mesh :=
  { m with
    vertices := m.vertices ++ t.faceIndices.map (fun fi =>
      { position := t.vertices.getD fi.x Vec3.zero
        normal := t.normals.getD fi.z Vec3.zero
        texCoords := t.texCoords.getD fi.y Vec2.zero
        tangent := Vec4.zero })
    indices := m.indices ++ List.range t.faceIndices.length }

/-- `obj::ConstructVertices`: the loop runs over `t_meshes` and indexes
`tempMeshes` at the same position (reading an empty scratch if the vector is
shorter, which in C++ would be undefined behaviour). -/
def ConstructVertices : List TempMesh → List Mesh → List Mesh
  | _, [] => []
  | ts, m :: ms => constructMesh (ts.headD ({} : TempMesh)) m :: ConstructVertices ts.tail ms

/- ### Mesh combination (`obj::CombineMeshes`, lines 610–652) -/

/-- `initFrom`: copy the identification fields of the first source mesh. -/
def initFrom (src dst : Mesh) : Mesh :=
  { dst with
    name := src.name
    material := src.material
    meshNumber := src.meshNumber
    lodLevel := src.lodLevel }

/-- The per-LOD combination loop: indices are appended offset by the running
base-vertex count, then the vertices are appended; the base and the offset
additions are `unsigned int` arithmetic (mod 2^32). -/
def combineInto (dst : Mesh) (lodMeshes : List Mesh) : Mesh :=
  (lodMeshes.foldl
    (fun (p : Mesh × Nat) m =>
      ({ p.1 with
          indices := p.1.indices ++ m.indices.map (fun i => (i + p.2) % u32)
          vertices := p.1.vertices ++ m.vertices },
        (p.2 + m.vertices.length) % u32))
    (dst, 0)).1

/-- `obj::CombineMeshes` over the per-LOD mesh groups (the values of
`t_state.meshes` in key order). Each iteration appends one default mesh and
then writes the combined mesh through `combinedMeshes[lod[0].lodLevel]`; when
that level is not the index of the slot just appended the C++ write is out of
bounds or clobbers an earlier slot — `List.set` models the out-of-bounds case
as a no-op, leaving the freshly appended empty mesh in place. -/
def CombineMeshes (lods : List (List Mesh)) : List Mesh :=
  lods.foldl
    (fun acc lod =>
      let first := lod.headD ({} : Mesh)
      let acc' := acc ++ [({} : Mesh)]
      acc'.set first.lodLevel
        (combineInto (initFrom first (acc'.getD first.lodLevel ({} : Mesh))) lod))
    []

/- ### Stage sequencing of `ObjLoader::LoadFileInternal` (ObjLoader.cpp,
lines 102–130)

The per-task pipeline is abstracted to the order in which the stage
procedures are invoked. -/

/-- One pipeline stage invocation. -/
inductive Stage where
  | parseMtlStage (lod : Nat)
  | parseObjStage (lod : Nat)
  | constructStage (lod : Nat)
  | joinStage (lod : Nat)
  | tangentsStage (lod : Nat)
  | combineStage
deriving DecidableEq, Repr

/-- Flag bits of `obj::Flag` (ObjHelpers.hpp): `Triangulate = 1`,
`CalculateTangents = 2`, `JoinIdentical = 4`, `CombineMeshes = 8`,
`Lods = 16`. -/
def calculateTangentsBit : Nat := 2

def joinIdenticalBit : Nat := 4

def combineMeshesBit : Nat := 8

def lodsBit : Nat := 16

/-- The flag test `(flags & F) == F`. -/
def hasFlag (flags bit : Nat) : Bool := flags.land bit == bit

/-- The body of the per-LOD loop of `LoadFileInternal`, as written:
`ParseMtl`, then `ParseObj`, then `ConstructVertices`, then
`JoinIdenticalVertices` when `JoinIdentical` is set, then `CalcTangentSpace`
when `CalculateTangents` is set. -/
def lodStages (flags lod : Nat) : List Stage :=
  [.parseMtlStage lod, .parseObjStage lod, .constructStage lod]
    ++ (if hasFlag flags joinIdenticalBit then [.joinStage lod] else [])
    ++ (if hasFlag flags calculateTangentsBit then [.tangentsStage lod] else [])

/-- The stage trace of `LoadFileInternal`: the loop over the file plan
accumulates the per-LOD stages; after the loop, `CombineMeshes` runs when its
flag is set. -/
def LoadFileInternalStages (flags : Nat) (plan : List Nat) : List Stage :=
  plan.foldl (fun acc lod => acc ++ lodStages flags lod) []
    ++ (if hasFlag flags combineMeshesBit then [.combineStage] else [])

/-- The per-LOD stage order asserted by the claim (and §2 of the spec): OBJ
parse, then MTL parse, then vertex assembly, then tangents when
`CalculateTangents` is set, then dedup when `JoinIdentical` is set. -/
def claimedLodStages (flags lod : Nat) : List Stage :=
  [.parseObjStage lod, .parseMtlStage lod, .constructStage lod]
    ++ (if hasFlag flags calculateTangentsBit then [.tangentsStage lod] else [])
    ++ (if hasFlag flags joinIdenticalBit then [.joinStage lod] else [])

/-- The whole trace asserted by the claim. -/
def claimedStages (flags : Nat) (plan : List Nat) : List Stage :=
  (plan.map (claimedLodStages flags)).flatten
    ++ (if hasFlag flags combineMeshesBit then [.combineStage] else [])

/- ### LOD discovery (`obj::CacheFilePaths`, ObjHelpers.cpp lines 37–95) -/

/-- One file-plan entry (`obj::File`). -/
structure File where
  objPath : String := ""
  mtlPath : String := ""
  lodLevel : Nat := 0
deriving DecidableEq, Repr

/-- One regular file of the scanned directory, split as
`std::filesystem::path` does: stem (filename without extension) and extension
(including the dot). -/
structure DirEntry where
  stem : List Char
  ext : String
deriving DecidableEq, Repr

/-- Position of the first occurrence of `needle` in `hay`
(`std::string::find`). -/
def subPos (needle : List Char) : List Char → Option Nat
  | [] => if needle.isPrefixOf [] then some 0 else none
  | c :: t =>
    if needle.isPrefixOf (c :: t) then some 0
    else (subPos needle t).map (· + 1)

/-- The leading digit run as a value; `none` when the first character is not
a digit. -/
def digitsVal (s : List Char) : Option Nat :=
  if (s.head?.map Char.isDigit).getD false then
    some ((s.takeWhile Char.isDigit).foldl (fun a c => a * 10 + (c.toNat - 48)) 0)
  else none

/-- Model of `std::stoi`: optional leading spaces and sign, then a mandatory
digit run; `none` models the `std::invalid_argument` throw. (The
`std::out_of_range` overflow throw is not modelled; every input considered
here is small.) -/
def stoiOpt (s : List Char) : Option Int :=
  match s.dropWhile (· == ' ') with
  | '-' :: r => (digitsVal r).map (fun n => -(n : Int))
  | '+' :: r => (digitsVal r).map (fun n => (n : Int))
  | r => (digitsVal r).map (fun n => (n : Int))

/-- The LOD-sibling discovery loop of `CacheFilePaths` over the directory
entries in iteration order, starting from the already-seeded plan. A file
whose stem does not contain `stem ++ "_lod"` is skipped; when the characters
after `_lod` do not parse as an integer, the `catch (...) { break; }` ends
the whole loop, returning the plan built so far. `filePaths[lodIndex]` is
written through `List.set` (out of bounds: undefined behaviour in C++,
modelled as a no-op). -/
def CacheFilePathsLods (stem : List Char) : List DirEntry → List File → List File
  | [], fps => fps
  | e :: rest, fps =>
    match subPos (stem ++ "_lod".toList) e.stem with
    | none => CacheFilePathsLods stem rest fps
    | some pos =>
      let lodNumStr := e.stem.drop (pos + stem.length + 4)
      match stoiOpt lodNumStr with
      | none => fps
      | some li =>
        let lodIndex := (li % (u32 : Int)).toNat
        let fps1 := if fps.length ≤ lodIndex then fps ++ [{ lodLevel := lodIndex }] else fps
        let path := String.mk e.stem ++ e.ext
        let fps2 :=
          if e.ext == ".obj" then
            fps1.set lodIndex { fps1.getD lodIndex ({} : File) with objPath := path }
          else if e.ext == ".mtl" then
            fps1.set lodIndex { fps1.getD lodIndex ({} : File) with mtlPath := path }
          else fps1
        CacheFilePathsLods stem rest fps2

/- ### File reading and the caching loop of `ObjLoader::LoadFile`
(ObjHelpers.cpp lines 19–31; ObjLoader.cpp lines 21–57) -/

/-- The file system, as a map from path to contents. -/
def FileSys : Type := String → Option String

/-- `obj::ReadFileToBuffer`: returns the contents, or throws
`std::runtime_error("Failed to open file: " + path)` when the stream does not
open. The error value records the failing path. -/
def ReadFileToBuffer (fs : FileSys) (path : String) : Except String String :=
  match fs path with
  | some buf => .ok buf
  | none => .error path

/-- The caching loop of `LoadFile`: for every plan entry, read the OBJ buffer
(a failure throws out of `LoadFile`), log the warning `"No mtl found …"` only
when the recorded `mtlPath` string is empty, then unconditionally read the
MTL buffer (a failure throws as well). `.error` carries the failing path and
the Warning-severity messages logged before the throw; `.ok` carries the
per-LOD OBJ and MTL buffers and all warnings. -/
def cacheBuffers (fs : FileSys) :
    List File → List (Nat × String) → List (Nat × String) → List String →
    Except (String × List String) (List (Nat × String) × List (Nat × String) × List String)
  | [], objB, mtlB, warns => .ok (objB, mtlB, warns)
  | fp :: rest, objB, mtlB, warns =>
    match ReadFileToBuffer fs fp.objPath with
    | .error p => .error (p, warns)
    | .ok ob =>
      let warns' :=
        if fp.mtlPath == "" then warns ++ ["No mtl found for file: " ++ fp.objPath]
        else warns
      match ReadFileToBuffer fs fp.mtlPath with
      | .error p => .error (p, warns')
      | .ok mb =>
        cacheBuffers fs rest (objB ++ [(fp.lodLevel, ob)]) (mtlB ++ [(fp.lodLevel, mb)]) warns'

/- ### Tangent-space construction (`obj::GetTangentCoords` and
`obj::CalcTangentSpace`, ObjHelpers.cpp lines 440–527)

This stage divides by vector norms and uv determinants, so it is embedded
over ℝ. Division by zero yields 0 in ℝ; the C++ float evaluation yields
inf/NaN at exactly the same inputs. For the uv determinant this makes both
models skip the triangle (`!isfinite` there, `length < 1e-10` here); for
`glm::normalize` of the zero vector the C++ result is a NaN tangent and the
model's result is the zero tangent — both fail the unit-length property at
the same inputs. -/

structure RVec2 where
  x : ℝ
  y : ℝ

structure RVec3 where
  x : ℝ
  y : ℝ
  z : ℝ

structure RVec4 where
  x : ℝ
  y : ℝ
  z : ℝ
  w : ℝ

noncomputable def RVec2.sub (a b : RVec2) : RVec2 := ⟨a.x - b.x, a.y - b.y⟩

noncomputable def RVec3.add (a b : RVec3) : RVec3 := ⟨a.x + b.x, a.y + b.y, a.z + b.z⟩

noncomputable def RVec3.sub (a b : RVec3) : RVec3 := ⟨a.x - b.x, a.y - b.y, a.z - b.z⟩

noncomputable def RVec3.smul (c : ℝ) (a : RVec3) : RVec3 := ⟨c * a.x, c * a.y, c * a.z⟩

noncomputable def RVec3.dot (a b : RVec3) : ℝ := a.x * b.x + a.y * b.y + a.z * b.z

noncomputable def RVec3.cross (a b : RVec3) : RVec3 :=
  ⟨a.y * b.z - a.z * b.y, a.z * b.x - a.x * b.z, a.x * b.y - a.y * b.x⟩

noncomputable def RVec3.normSq (a : RVec3) : ℝ := a.x ^ 2 + a.y ^ 2 + a.z ^ 2

/-- `glm::length` of a vec3. -/
noncomputable def RVec3.norm (a : RVec3) : ℝ := Real.sqrt a.normSq

/-- `glm::normalize`: the vector divided by its length (`0/0 = 0` in ℝ,
NaN in C++ — both non-unit). -/
noncomputable def RVec3.normalize (a : RVec3) : RVec3 := RVec3.smul (1 / a.norm) a

noncomputable def RVec4.add (a b : RVec4) : RVec4 :=
  ⟨a.x + b.x, a.y + b.y, a.z + b.z, a.w + b.w⟩

noncomputable def RVec4.smul (c : ℝ) (a : RVec4) : RVec4 := ⟨c * a.x, c * a.y, c * a.z, c * a.w⟩

/-- `glm::length` of a vec4 (all four channels). -/
noncomputable def RVec4.norm (a : RVec4) : ℝ :=
  Real.sqrt (a.x ^ 2 + a.y ^ 2 + a.z ^ 2 + a.w ^ 2)

/-- The xyz part of a vec4, `glm::vec3(v)`. -/
def RVec4.xyz (a : RVec4) : RVec3 := ⟨a.x, a.y, a.z⟩

def RVec3.zero : RVec3 := ⟨0, 0, 0⟩

/-- A vertex of the tangent stage (float fields as ℝ). -/
structure RVertex where
  position : RVec3 := RVec3.zero
  normal : RVec3 := RVec3.zero
  texCoords : RVec2 := ⟨0, 0⟩
  tangent : RVec4 := ⟨0, 0, 0, 0⟩

/-- A mesh of the tangent stage. -/
structure RMesh where
  vertices : List RVertex := []
  indices : List Nat := []

/-- `obj::GetTangentCoords`: the flat tangent and bitangent of one triangle,
from the uv-gradient system (the factor `f` is the inverse uv determinant). -/
noncomputable def GetTangentCoords (v1 v2 v3 : RVertex) : RVec3 × RVec3 :=
  let edge1 := v2.position.sub v1.position
  let edge2 := v3.position.sub v1.position
  let deltaUv1 := v2.texCoords.sub v1.texCoords
  let deltaUv2 := v3.texCoords.sub v1.texCoords
  let f := 1 / (deltaUv1.x * deltaUv2.y - deltaUv2.x * deltaUv1.y)
  (RVec3.smul f ((RVec3.smul deltaUv2.y edge1).sub (RVec3.smul deltaUv1.y edge2)),
   RVec3.smul f ((RVec3.smul deltaUv1.x edge2).sub (RVec3.smul deltaUv2.x edge1)))

/-- The triangles of an index list: three consecutive indices each. (When the
list length is not a multiple of 3 the C++ loop reads past the end — the
leftover indices are dropped here.) -/
def tri3 : List Nat → List (Nat × Nat × Nat)
  | a :: b :: c :: rest => (a, b, c) :: tri3 rest
  | _ => []

/-- The accumulation step for one triangle: degenerate triangles (tangent or
bitangent shorter than 1e-10, or non-finite in C++ — which arises exactly
from the zero uv determinant, mapped to a zero tangent here) are skipped;
otherwise the area-weighted tangent is added into the three vertex tangents
and the area-weighted bitangent into the scratch buffer, sequentially. -/
noncomputable def accumTri (s : List RVertex × List RVec3) (t : Nat × Nat × Nat) :
    List RVertex × List RVec3 :=
  let v0 := s.1.getD t.1 {}
  let v1 := s.1.getD t.2.1 {}
  let v2 := s.1.getD t.2.2 {}
  let tb := GetTangentCoords v0 v1 v2
  if tb.1.norm < 1e-10 ∨ tb.2.norm < 1e-10 then s
  else
    let area := ((v1.position.sub v0.position).cross (v2.position.sub v0.position)).norm * (1 / 2)
    let addT := fun (vs : List RVertex) (i : Nat) =>
      vs.set i { vs.getD i {} with
        tangent := (vs.getD i {}).tangent.add (RVec4.smul area ⟨tb.1.x, tb.1.y, tb.1.z, 0⟩) }
    let addB := fun (bs : List RVec3) (i : Nat) =>
      bs.set i ((bs.getD i RVec3.zero).add (RVec3.smul area tb.2))
    let vs1 := addT s.1 t.1
    let bs1 := addB s.2 t.1
    let vs2 := addT vs1 t.2.1
    let bs2 := addB bs1 t.2.1
    (addT vs2 t.2.2, addB bs2 t.2.2)

/-- The accumulation sweep of `CalcTangentSpace` over one mesh: vertex
tangents and the parallel bitangent scratch (initialised to zero vectors). -/
noncomputable def accumulateTangents (m : RMesh) : List RVertex × List RVec3 :=
  (tri3 m.indices).foldl accumTri (m.vertices, m.vertices.map (fun _ => RVec3.zero))

/-- The Gram–Schmidt residual of an accumulated vertex:
`vec3(tangent) − normal * dot(normal, vec3(tangent))`. -/
noncomputable def gramResidual (v : RVertex) : RVec3 :=
  (v.tangent.xyz).sub (RVec3.smul (v.normal.dot v.tangent.xyz) v.normal)

/-- The per-vertex finalisation: Gram–Schmidt orthogonalisation against the
normal when the accumulated vec4 tangent is longer than 1e-10 (fallback
`(1,0,0)`), then the handedness sign from the unnormalised bitangent, with
`sign(0) = +1`. -/
noncomputable def finalizeTangent (v : RVertex) (bacc : RVec3) : RVertex :=
  let t := if 1e-10 < v.tangent.norm then (gramResidual v).normalize else (⟨1, 0, 0⟩ : RVec3)
  let handedness : ℝ := if (v.normal.cross t).dot bacc < 0 then -1 else 1
  { v with tangent := ⟨t.x, t.y, t.z, handedness⟩ }

/-- The finalisation loop: vertex `i` is finalised with `bitangents[i]` (the
two lists walk in parallel; they always have equal length). -/
noncomputable def finalizeAll : List RVertex → List RVec3 → List RVertex
  | [], _ => []
  | v :: vs, bs => finalizeTangent v (bs.headD RVec3.zero) :: finalizeAll vs bs.tail

/-- `obj::CalcTangentSpace` on one mesh. -/
noncomputable def calcMeshTangents (m : RMesh) : RMesh :=
  let s := accumulateTangents m
  { m with vertices := finalizeAll s.1 s.2 }

/-- `obj::CalcTangentSpace` over the mesh vector. -/
noncomputable def CalcTangentSpace (ms : List RMesh) : List RMesh := ms.map calcMeshTangents

/- ## Theorems -/

/- ### C3 — stage order of the worker pipeline -/

/-- The per-LOD stage order that the code actually implements (the amended
claim): MTL parse, then OBJ parse, then vertex assembly, then deduplication
when `JoinIdentical` is set, then tangent-space build when
`CalculateTangents` is set. -/
def amendedLodStages (flags lod : Nat) : List Stage :=
  [.parseMtlStage lod, .parseObjStage lod, .constructStage lod]
    ++ (if hasFlag flags joinIdenticalBit then [.joinStage lod] else [])
    ++ (if hasFlag flags calculateTangentsBit then [.tangentsStage lod] else [])

/-- The amended whole-task trace: the per-LOD stages in plan order, then
`CombineMeshes` when its flag is set. -/
def amendedStages (flags : Nat) (plan : List Nat) : List Stage :=
  (plan.map (amendedLodStages flags)).flatten
    ++ (if hasFlag flags combineMeshesBit then [.combineStage] else [])

/-- Accumulating per-LOD stage lists with `foldl` and `(· ++ ·)` is the
flattened map. -/
theorem foldl_append_stages (f : Nat → List Stage) (plan : List Nat) (init : List Stage) :
    plan.foldl (fun acc lod => acc ++ f lod) init = init ++ (plan.map f).flatten := by
  induction plan generalizing init with
  | nil => simp
  | cons lod rest ih => simp [ih, List.append_assoc]

/-- C3, counterexample: with `CalculateTangents | JoinIdentical |
CombineMeshes` (flag value 14) and a one-entry plan, the trace of
`LoadFileInternal` is not the order asserted by the claim — the code parses
MTL before OBJ and deduplicates before building tangents. -/
theorem C3_counterexample :
    LoadFileInternalStages 14 [0] ≠ claimedStages 14 [0] := by decide

/-- C3, amended: for every flag combination and every plan, the worker
pipeline runs, for each LOD in plan order, MTL parse, then OBJ parse, then
vertex assembly, then vertex deduplication when the JoinIdentical flag is
set, then tangent-space build when the CalculateTangents flag is set; after
all LODs, mesh combination runs when CombineMeshes is set. -/
theorem C3_amended (flags : Nat) (plan : List Nat) :
    LoadFileInternalStages flags plan = amendedStages flags plan := by
  unfold LoadFileInternalStages amendedStages
  rw [foldl_append_stages]
  rfl

/- ### C1 — a present OBJ with an absent sibling MTL -/

/-- A file system holding only `a.obj`. -/
def fsMissingMtl : FileSys := fun p => if p = "a.obj" then some "o cube" else none

/-- C1, counterexample: with `a.obj` present and its sibling `a.mtl` absent,
the caching loop of `LoadFile` throws the `ReadFileToBuffer` error for
`a.mtl` without having logged any warning (the warning fires only on an
empty `mtlPath` string, and LOD 0 always records a non-empty one), so the
load fails before any material record exists. -/
theorem C1_counterexample :
    cacheBuffers fsMissingMtl [{ objPath := "a.obj", mtlPath := "a.mtl", lodLevel := 0 }] [] [] []
      = .error ("a.mtl", []) := by
  rfl

/-- C1, amended: for every file system and plan entry whose OBJ is present
and whose recorded (non-empty) MTL path is absent, `LoadFile`'s caching loop
raises the read error for the MTL path and logs no warning — a missing MTL
file is fatal, not a warning with an empty material record. -/
theorem C1_amended (fs : FileSys) (objP mtlP buf : String) (lod : Nat)
    (hobj : fs objP = some buf) (hmtl : fs mtlP = none) (hne : mtlP ≠ "") :
    cacheBuffers fs [{ objPath := objP, mtlPath := mtlP, lodLevel := lod }] [] [] []
      = .error (mtlP, []) := by
  simp [cacheBuffers, ReadFileToBuffer, hobj, hmtl, hne]

/-- C1 witness: the amended theorem applied to the concrete one-file system. -/
theorem C1_amended_witness :
    cacheBuffers fsMissingMtl [{ objPath := "a.obj", mtlPath := "a.mtl", lodLevel := 0 }] [] [] []
      = .error ("a.mtl", []) :=
  C1_amended fsMissingMtl "a.obj" "a.mtl" "o cube" 0 (by decide) (by decide) (by decide)

/- ### C8 — invalid LOD suffixes during discovery -/

/-- The S5 directory in an iteration order that puts the invalid suffix
first: `a_lodX.obj`, then `a_lod1.obj`, then `a_lod1.mtl`. -/
def dirWithBadLod : List DirEntry :=
  [⟨"a_lodX".toList, ".obj"⟩, ⟨"a_lod1".toList, ".obj"⟩, ⟨"a_lod1".toList, ".mtl"⟩]

/-- The seeded plan: LOD 0 with the base OBJ and its sibling MTL path. -/
def basePlan : List File := [{ objPath := "a.obj", mtlPath := "a.mtl", lodLevel := 0 }]

/-- C8: the code violates the claim. `a_lodX` makes `std::stoi` throw, and
the handler is `catch (...) { break; }` — despite its own comment
`// invalid suffix, skip file` — so discovery terminates and the valid
`a_lod1.obj` / `a_lod1.mtl` siblings never receive their plan entry at index
1. The second conjunct shows that with the invalid file absent the loop does
produce exactly that entry, so the loss is caused by the early `break`
alone. -/
theorem C8_code_bug :
    CacheFilePathsLods "a".toList dirWithBadLod basePlan = basePlan ∧
    CacheFilePathsLods "a".toList (dirWithBadLod.drop 1) basePlan =
      basePlan ++ [{ objPath := "a_lod1.obj", mtlPath := "a_lod1.mtl", lodLevel := 1 }] := by
  constructor
  · rfl
  · rfl

/- ### C2 — all indices stay below the vertex count -/

/-- Assembling one mesh preserves the index-bound invariant: the appended
indices `0 … n−1` address the `n` appended vertices. -/
theorem constructMesh_boundsOk (t : TempMesh) (m : Mesh) (h : boundsOk m) :
    boundsOk (constructMesh t m) := by
  intro i hi
  simp only [constructMesh, List.mem_append, List.mem_range] at hi
  simp only [constructMesh, List.length_append, List.length_map]
  rcases hi with hi | hi
  · exact lt_of_lt_of_le (h i hi) (Nat.le_add_right _ _)
  · omega

/-- A hit in the model hash map returns an index recorded in some entry. -/
theorem mapFind_mem (es : List (Vertex × Nat)) (v : Vertex) (i : Nat)
    (h : mapFind es v = some i) : ∃ e ∈ es, e.2 = i := by
  induction es with
  | nil => simp [mapFind] at h
  | cons e rest ih =>
    by_cases hk : keyMatch e.1 v
    · refine ⟨e, by simp, ?_⟩
      simp [mapFind, hk] at h
      omega
    · simp only [mapFind, hk] at h
      simp only [Bool.false_eq_true, if_false] at h
      obtain ⟨e', he', hi⟩ := ih h
      exact ⟨e', by simp [he'], hi⟩

/-- The dedup walk keeps every emitted index below the length of the vertex
list being built. -/
theorem joinGo_bounds (vs : List Vertex) (idxs : List Nat)
    (entries : List (Vertex × Nat)) (newVerts : List Vertex) (newIdx : List Nat)
    (hIdx : ∀ j ∈ newIdx, j < newVerts.length)
    (hEnt : ∀ e ∈ entries, e.2 < newVerts.length) :
    ∀ j ∈ (joinGo vs idxs entries newVerts newIdx).2,
      j < (joinGo vs idxs entries newVerts newIdx).1.length := by
  induction idxs generalizing entries newVerts newIdx with
  | nil => simpa [joinGo] using hIdx
  | cons idx rest ih =>
    simp only [joinGo]
    rcases hf : mapFind entries (vs.getD idx {}) with _ | i
    · refine ih _ _ _ ?_ ?_
      · intro j hj
        simp only [List.mem_append, List.mem_singleton] at hj
        simp only [List.length_append, List.length_singleton]
        rcases hj with hj | hj
        · exact lt_of_lt_of_le (hIdx j hj) (Nat.le_add_right _ _)
        · omega
      · intro e he
        simp only [List.mem_append, List.mem_singleton] at he
        simp only [List.length_append, List.length_singleton]
        rcases he with he | he
        · exact lt_of_lt_of_le (hEnt e he) (Nat.le_add_right _ _)
        · simp [he]
    · refine ih _ _ _ ?_ hEnt
      intro j hj
      simp only [List.mem_append, List.mem_singleton] at hj
      rcases hj with hj | hj
      · exact hIdx j hj
      · obtain ⟨e, he, hei⟩ := mapFind_mem _ _ _ hf
        exact hj ▸ hei ▸ hEnt e he

/-- Deduplicating one mesh preserves the index-bound invariant. -/
theorem joinMesh_boundsOk (m : Mesh) (h : boundsOk m) : boundsOk (joinMesh m) := by
  unfold joinMesh
  by_cases he : m.vertices.isEmpty
  · simpa [he] using h
  · simp only [he, Bool.false_eq_true, if_false]
    intro i hi
    exact joinGo_bounds m.vertices m.indices [] [] [] (by simp) (by simp) i hi

/-- Total vertex count across all per-LOD groups. -/
def totalVerts (lods : List (List Mesh)) : Nat :=
  (lods.map (fun g => (g.map (fun m => m.vertices.length)).sum)).sum

/-- The per-LOD combining fold: vertex counts add up. -/
theorem combineInto_length (dst : Mesh) (g : List Mesh) :
    (combineInto dst g).vertices.length
      = dst.vertices.length + (g.map (fun m => m.vertices.length)).sum := by
  suffices h : ∀ (p : Mesh × Nat),
      ((g.foldl (fun (p : Mesh × Nat) m =>
        ({ p.1 with
            indices := p.1.indices ++ m.indices.map (fun i => (i + p.2) % u32)
            vertices := p.1.vertices ++ m.vertices },
          (p.2 + m.vertices.length) % u32)) p).1).vertices.length
        = p.1.vertices.length + (g.map (fun m => m.vertices.length)).sum by
    exact h (dst, 0)
  induction g with
  | nil => intro p; simp
  | cons m rest ih =>
    intro p
    simp only [List.foldl_cons, List.map_cons, List.sum_cons]
    rw [ih]
    simp [Nat.add_assoc]

/-- The per-LOD combining fold preserves the index-bound invariant as long as
the accumulated base never wraps mod 2^32 (total vertex count at most
2^32). -/
theorem combineInto_boundsOk (dst : Mesh) (g : List Mesh) (hd : boundsOk dst)
    (hg : ∀ m ∈ g, boundsOk m)
    (htot : dst.vertices.length + (g.map (fun m => m.vertices.length)).sum ≤ u32) :
    boundsOk (combineInto dst g) := by
  suffices h : ∀ (p : Mesh × Nat), boundsOk p.1 → p.2 ≤ p.1.vertices.length →
      p.1.vertices.length + (g.map (fun m => m.vertices.length)).sum ≤ u32 →
      boundsOk ((g.foldl (fun (p : Mesh × Nat) m =>
        ({ p.1 with
            indices := p.1.indices ++ m.indices.map (fun i => (i + p.2) % u32)
            vertices := p.1.vertices ++ m.vertices },
          (p.2 + m.vertices.length) % u32)) p).1) by
    exact h (dst, 0) hd (by omega) htot
  clear hd htot
  induction g with
  | nil => intro p hp _ _; simpa using hp
  | cons m rest ih =>
    intro p hp hb htot
    simp only [List.foldl_cons]
    have hm : boundsOk m := hg m (by simp)
    have hrest : ∀ m' ∈ rest, boundsOk m' := fun m' h' => hg m' (by simp [h'])
    simp only [List.map_cons, List.sum_cons] at htot
    refine ih hrest _ ?_ ?_ ?_
    · intro i hi
      simp only [List.mem_append, List.mem_map] at hi
      simp only [List.length_append]
      rcases hi with hi | ⟨j, hj, rfl⟩
      · exact lt_of_lt_of_le (hp i hi) (Nat.le_add_right _ _)
      · have hjm : j < m.vertices.length := hm j hj
        have hlt : j + p.2 < p.1.vertices.length + m.vertices.length := by omega
        have : (j + p.2) % u32 = j + p.2 := Nat.mod_eq_of_lt (by omega)
        omega
    · simp only [List.length_append]
      calc (p.2 + m.vertices.length) % u32 ≤ p.2 + m.vertices.length := Nat.mod_le _ _
        _ ≤ p.1.vertices.length + m.vertices.length := by omega
    · simp only [List.length_append]
      omega

/-- An empty mesh satisfies the invariant. -/
theorem boundsOk_empty : boundsOk ({} : Mesh) := by
  intro i hi
  simp at hi

/-- `initFrom` copies only identification fields. -/
theorem initFrom_vertices (s d : Mesh) :
    (initFrom s d).vertices = d.vertices ∧ (initFrom s d).indices = d.indices := by
  simp [initFrom]

/-- The `CombineMeshes` fold keeps every accumulated mesh within bounds,
given bounded sources and a total vertex count that cannot wrap the 32-bit
base-vertex counter. -/
theorem combineMeshes_fold_boundsOk :
    ∀ (lods : List (List Mesh)) (acc : List Mesh),
      (∀ g ∈ lods, ∀ m ∈ g, boundsOk m) →
      (∀ m ∈ acc, boundsOk m ∧ m.vertices.length + totalVerts lods ≤ u32) →
      totalVerts lods ≤ u32 →
      ∀ m' ∈ lods.foldl
        (fun acc lod =>
          let first := lod.headD ({} : Mesh)
          let acc' := acc ++ [({} : Mesh)]
          acc'.set first.lodLevel
            (combineInto (initFrom first (acc'.getD first.lodLevel ({} : Mesh))) lod)) acc,
        boundsOk m' := by
  intro lods
  induction lods with
  | nil =>
    intro acc _ hacc _ m' hm'
    exact (hacc m' hm').1
  | cons g rest ih =>
    intro acc hg hacc htot
    have hSum : totalVerts (g :: rest)
        = (g.map (fun m => m.vertices.length)).sum + totalVerts rest := by
      simp [totalVerts]
    have htot' : totalVerts rest ≤ u32 := by omega
    simp only [List.foldl_cons]
    set first := g.headD ({} : Mesh) with hfirst
    set acc' := acc ++ [({} : Mesh)] with hacc'
    have hmemAcc' : ∀ m ∈ acc', boundsOk m ∧ m.vertices.length + totalVerts (g :: rest) ≤ u32 := by
      intro m hm
      rcases List.mem_append.mp hm with hm | hm
      · exact hacc m hm
      · simp only [List.mem_singleton] at hm
        subst hm
        exact ⟨boundsOk_empty, by simpa using htot⟩
    set target := acc'.getD first.lodLevel ({} : Mesh) with htarget
    have htargetOk : boundsOk target ∧ target.vertices.length + totalVerts (g :: rest) ≤ u32 := by
      by_cases hlt : first.lodLevel < acc'.length
      · have : target ∈ acc' := by
          rw [htarget, List.getD_eq_getElem _ _ hlt]
          exact List.getElem_mem hlt
        exact hmemAcc' _ this
      · rw [htarget, List.getD_eq_default _ _ (by omega)]
        exact ⟨boundsOk_empty, by simpa using htot⟩
    set res := combineInto (initFrom first target) g with hres
    have hresOk : boundsOk res := by
      refine combineInto_boundsOk _ _ ?_ (fun m hm => hg g (by simp) m hm) ?_
      · intro i hi
        rw [(initFrom_vertices first target).2] at hi
        rw [(initFrom_vertices first target).1]
        exact htargetOk.1 i hi
      · rw [(initFrom_vertices first target).1]
        omega
    have hresLen : res.vertices.length
        = target.vertices.length + (g.map (fun m => m.vertices.length)).sum := by
      rw [hres, combineInto_length, (initFrom_vertices first target).1]
    refine ih _ (fun g' hg' m hm => hg g' (by simp [hg']) m hm) ?_ htot'
    intro m hm
    rcases List.mem_or_eq_of_mem_set hm with hm | rfl
    · obtain ⟨h1, h2⟩ := hmemAcc' m hm
      exact ⟨h1, by omega⟩
    · exact ⟨hresOk, by omega⟩

/-- C2: each pipeline stage keeps every index strictly below the vertex count
of its mesh — after `ConstructVertices` (given in-bound inputs, trivially met
by the fresh meshes of `ParseObj`), after `JoinIdenticalVertices`, and for
every combined mesh of `CombineMeshes` (given sources within bounds and a
total vertex count that cannot wrap the 32-bit base-vertex counter). -/
theorem C2_index_bounds :
    (∀ (temps : List TempMesh) (meshes : List Mesh),
        (∀ m ∈ meshes, boundsOk m) →
        ∀ m' ∈ ConstructVertices temps meshes, boundsOk m') ∧
    (∀ ms : List Mesh,
        (∀ m ∈ ms, boundsOk m) →
        ∀ m' ∈ JoinIdenticalVertices ms, boundsOk m') ∧
    (∀ lods : List (List Mesh),
        (∀ g ∈ lods, ∀ m ∈ g, boundsOk m) → totalVerts lods ≤ u32 →
        ∀ m' ∈ CombineMeshes lods, boundsOk m') := by
  refine ⟨?_, ?_, ?_⟩
  · intro temps meshes
    induction meshes generalizing temps with
    | nil => intro _ m' hm'; simp [ConstructVertices] at hm'
    | cons m ms ih =>
      intro h m' hm'
      simp only [ConstructVertices, List.mem_cons] at hm'
      rcases hm' with rfl | hm'
      · exact constructMesh_boundsOk _ _ (h m (by simp))
      · exact ih _ (fun x hx => h x (by simp [hx])) m' hm'
  · intro ms h m' hm'
    obtain ⟨m, hm, rfl⟩ := List.mem_map.mp hm'
    exact joinMesh_boundsOk m (h m hm)
  · intro lods hg htot m' hm'
    exact combineMeshes_fold_boundsOk lods [] hg (by simp) htot m' hm'

/-- Concrete inputs for the C2 witness. -/
def tmpW : TempMesh := { vertices := [Vec3.zero], faceIndices := [⟨0, 0, 0⟩] }

def meshW : Mesh := { vertices := [({} : Vertex)], indices := [0, 0] }

/-- C2 witness: the invariant at concrete one-mesh inputs for all three
stages. -/
theorem C2_index_bounds_witness :
    boundsOk (constructMesh tmpW ({} : Mesh)) ∧
    boundsOk (joinMesh meshW) ∧
    boundsOk ((CombineMeshes [[meshW]]).headD ({} : Mesh)) := by
  have hW : boundsOk meshW := by decide
  refine ⟨?_, ?_, ?_⟩
  · exact C2_index_bounds.1 [tmpW] [({} : Mesh)]
      (by intro m hm; simp only [List.mem_singleton] at hm; subst hm; exact boundsOk_empty)
      _ (by simp [ConstructVertices])
  · exact C2_index_bounds.2.1 [meshW]
      (by intro m hm; simp only [List.mem_singleton] at hm; subst hm; exact hW)
      _ (by simp [JoinIdenticalVertices])
  · refine C2_index_bounds.2.2 [[meshW]] ?_ (by decide) _ ?_
    · intro g hg m hm
      simp only [List.mem_singleton] at hg
      subst hg
      simp only [List.mem_singleton] at hm
      subst hm
      exact hW
    · have hne : (CombineMeshes [[meshW]]).length = 1 := by decide
      have : (CombineMeshes [[meshW]]).headD ({} : Mesh)
          = (CombineMeshes [[meshW]]).getD 0 ({} : Mesh) := by
        cases h : CombineMeshes [[meshW]] with
        | nil => simp [h] at hne
        | cons a l => simp
      rw [this, List.getD_eq_getElem _ _ (by omega)]
      exact List.getElem_mem _

/- ### C4 — what `JoinIdenticalVertices` counts -/

/-- Sequential first-match class representatives: a vertex joins the list
unless some earlier representative matches it under the map's actual lookup
relation (equal quantised hash and componentwise tolerance `1e-6`). -/
def addRep (reps : List Vertex) (v : Vertex) : List Vertex :=
  if reps.any (fun r => keyMatch r v) then reps else reps ++ [v]

/-- The representatives of a vertex sequence, in first-appearance order. -/
def repsFold (vs : List Vertex) : List Vertex := vs.foldl addRep []

/-- The sequence of vertices referenced by the index list, in walk order. -/
def refSeq (m : Mesh) : List Vertex := m.indices.map (fun i => m.vertices.getD i ({} : Vertex))

/-- Entries of the model hash map for a vertex list, indices counted from
`k`. -/
def entriesFrom : List Vertex → Nat → List (Vertex × Nat)
  | [], _ => []
  | v :: vs, k => (v, k) :: entriesFrom vs (k + 1)

theorem entriesFrom_append (xs : List Vertex) (v : Vertex) (k : Nat) :
    entriesFrom (xs ++ [v]) k = entriesFrom xs k ++ [(v, k + xs.length)] := by
  induction xs generalizing k with
  | nil => simp [entriesFrom]
  | cons x xs ih =>
    have harith : k + 1 + xs.length = k + (xs.length + 1) := by omega
    simp [entriesFrom, ih, harith]

/-- The map lookup misses exactly when no stored vertex matches the probe. -/
theorem mapFind_none_iff (vs : List Vertex) (k : Nat) (v : Vertex) :
    mapFind (entriesFrom vs k) v = none ↔ vs.any (fun r => keyMatch r v) = false := by
  induction vs generalizing k with
  | nil => simp [entriesFrom, mapFind]
  | cons x xs ih =>
    simp only [entriesFrom, mapFind, List.any_cons]
    by_cases hk : keyMatch x v
    · simp [hk]
    · simp only [hk, Bool.false_eq_true, if_false, Bool.false_or]
      exact ih (k + 1)

/-- The dedup walk builds exactly the sequential first-match representatives
of the referenced vertex sequence, and emits one index per walked index. -/
theorem joinGo_spec (vs : List Vertex) (idxs : List Nat) (reps : List Vertex)
    (outIdx : List Nat) :
    (joinGo vs idxs (entriesFrom reps 0) reps outIdx).1
        = (idxs.map (fun i => vs.getD i ({} : Vertex))).foldl addRep reps ∧
    (joinGo vs idxs (entriesFrom reps 0) reps outIdx).2.length
        = outIdx.length + idxs.length := by
  induction idxs generalizing reps outIdx with
  | nil => simp [joinGo]
  | cons idx rest ih =>
    simp only [joinGo, List.map_cons, List.foldl_cons]
    rcases hf : mapFind (entriesFrom reps 0) (vs.getD idx ({} : Vertex)) with _ | i
    · have hany := (mapFind_none_iff reps 0 _).mp hf
      have hstep : addRep reps (vs.getD idx ({} : Vertex)) = reps ++ [vs.getD idx ({} : Vertex)] := by
        unfold addRep
        rw [hany]
        simp
      have hentries : entriesFrom reps 0 ++ [(vs.getD idx ({} : Vertex), reps.length)]
          = entriesFrom (reps ++ [vs.getD idx ({} : Vertex)]) 0 := by
        rw [entriesFrom_append]
        simp
      rw [hentries]
      rw [hstep]
      obtain ⟨h1, h2⟩ := ih (reps ++ [vs.getD idx ({} : Vertex)]) (outIdx ++ [reps.length])
      refine ⟨h1, ?_⟩
      rw [h2]
      simp only [List.length_append, List.length_cons, List.length_nil]
      omega
    · have hany : reps.any (fun r => keyMatch r (vs.getD idx ({} : Vertex))) = true := by
        by_contra hc
        rw [Bool.not_eq_true] at hc
        rw [(mapFind_none_iff reps 0 _).mpr hc] at hf
        cases hf
      have hstep : addRep reps (vs.getD idx ({} : Vertex)) = reps := by
        unfold addRep
        rw [hany]
        simp
      rw [hstep]
      obtain ⟨h1, h2⟩ := ih reps (outIdx ++ [i])
      refine ⟨h1, ?_⟩
      rw [h2]
      simp only [List.length_append, List.length_cons, List.length_nil]
      omega

/-- Two vertices with the same quantised key that the dedup map keeps
separate: all components zero versus position.x = 1/250000 (4·10⁻⁶, which
rounds to the same quantised integer 0 but exceeds the 1e-6 tolerance of
`VertexEqual`). -/
def vA : Vertex := {}

def vB : Vertex := { position := ⟨1 / 250000, 0, 0⟩ }

/-- C4, counterexample: on the two-vertex mesh `[vA, vB]` with indices
`[0,1]`, deduplication leaves 2 vertices although the two vertices have
exactly the same quantised 12-component key — the hash-map lookup compares
with the 1e-6 tolerance `VertexEqual`, not with quantised equality, so the
vertex count is not the number of distinct quantised keys. -/
theorem C4_counterexample :
    (joinMesh { vertices := [vA, vB], indices := [0, 1] }).vertices.length = 2 ∧
    asArrayQuantized vA = asArrayQuantized vB := by
  have heq : vertexEqual vA vB = false := by
    have h1 : decide (|vA.position.x - vB.position.x| < tolEps) = false := by
      rw [decide_eq_false_iff_not]
      norm_num [vA, vB, tolEps, Vec3.zero, abs_lt]
    simp [vertexEqual, h1]
  have hkm : keyMatch vA vB = false := by
    simp [keyMatch, heq]
  have hz : quantize 0 = 0 := by
    unfold quantize roundAway
    rw [if_pos (by norm_num)]
    rw [show (0 : ℚ) * 100000 + 1 / 2 = 1 / 2 by norm_num]
    rw [Int.floor_eq_zero_iff, Set.mem_Ico]
    norm_num
  have hq : quantize (1 / 250000) = 0 := by
    unfold quantize roundAway
    rw [if_pos (by norm_num)]
    rw [show (1 : ℚ) / 250000 * 100000 + 1 / 2 = 9 / 10 by norm_num]
    rw [Int.floor_eq_zero_iff, Set.mem_Ico]
    norm_num
  constructor
  · simp only [joinMesh, joinGo, mapFind, List.isEmpty_cons, Bool.false_eq_true, if_false,
      List.getD_cons_zero, List.getD_cons_succ, hkm]
    rfl
  · simp only [asArrayQuantized, vA, vB, Vec3.zero, Vec2.zero, Vec4.zero]
    norm_num [hz, hq]

/-- C4, amended: deduplication emits one index per original index (the index
list keeps its length), and the new vertex list is exactly the sequence of
first-match representatives of the referenced vertices under the map's
actual lookup relation — equal quantised hash and componentwise difference
below 1e-6 (`VertexEqual`) — so the vertex count is the number of such
lookup-distinct classes, not the number of distinct quantised keys. (The
hypothesis rules out the pass-through of a degenerate mesh with indices but
no vertices.) -/
theorem C4_amended (m : Mesh) (h : m.vertices = [] → m.indices = []) :
    (joinMesh m).indices.length = m.indices.length ∧
    (joinMesh m).vertices = repsFold (refSeq m) := by
  unfold joinMesh
  by_cases he : m.vertices.isEmpty
  · have hv : m.vertices = [] := List.isEmpty_iff.mp he
    have hi : m.indices = [] := h hv
    simp [he, hv, hi, repsFold, refSeq]
  · simp only [he, Bool.false_eq_true, if_false]
    have := joinGo_spec m.vertices m.indices [] []
    obtain ⟨h1, h2⟩ := this
    constructor
    · simpa using h2
    · simpa [repsFold, refSeq] using h1

/-- C4 witness: the amended theorem at a concrete mesh (two references to
one vertex collapse to a single representative, the index list keeps length
2). -/
theorem C4_amended_witness :
    (joinMesh { vertices := [vA], indices := [0, 0] }).indices.length = 2 ∧
    (joinMesh { vertices := [vA], indices := [0, 0] }).vertices
      = repsFold (refSeq { vertices := [vA], indices := [0, 0] }) := by
  have := C4_amended { vertices := [vA], indices := [0, 0] } (by intro h; cases h)
  simpa using this

/- ### C7 — the `usemtl` uv-range / `isTiled` bookkeeping -/

/-- Two materials, as `ParseMtl` would have produced them. -/
def matsAB : List Material := [{ name := "A" }, { name := "B" }]

/-- One object, all texture coordinates inside the unit square: `vt 0.2 0.2`,
`usemtl A`, `vt 0.3 0.3`, `usemtl B`. -/
def uvLines : List ObjLine :=
  [.o "m", .vt (1 / 5) (1 / 5), .usemtl "A", .vt (3 / 10) (3 / 10), .usemtl "B"]

/-- C7: the code violates the claim. All observed texture coordinates stay
inside the unit square, so no uv range ever exceeds 1 and the claim demands
that no `isTiled` flag be set; yet the parser flags the material of the
second `usemtl` as tiled. The uv "reset" at a `usemtl` line assigns
`uvMax = FLT_MAX` and `uvMin = FLT_MIN` — the reverse of the initialisation
idiom `uvMin = FLT_MAX, uvMax = −FLT_MAX` — so every subsequent range is
about `FLT_MAX` and every material after the first is flagged tiled.
(Two further divergences from the claim's wording are visible in the model:
`uvMin` is updated only with the raw `u` and `uvMax` only with the flipped
`1 − v`, and the flag is written at the slot of the `usemtl` being processed,
not the previously active one.) -/
theorem C7_code_bug :
    (runParseObj 0 (initState matsAB) uvLines).toOption.map
      (fun st => ((st.materials.getD 0 ({} : Material)).isTiled,
                  (st.materials.getD 1 ({} : Material)).isTiled))
      = some (false, true) := by
  have d1 : decide ((1 : ℚ) < 3 / 5) = false := decide_eq_false (by norm_num)
  have d2 : decide ((1 : ℚ) < fltMax - fltMin) = true :=
    decide_eq_true (by norm_num [fltMax, fltMin])
  have hm3 : min fltMax ((1 : ℚ) / 5) = 1 / 5 := min_eq_right (by norm_num [fltMax])
  have hm4 : max (-fltMax) ((4 : ℚ) / 5) = 4 / 5 := max_eq_right (by norm_num [fltMax])
  have hm1 : min fltMin ((3 : ℚ) / 10) = fltMin := min_eq_left (by norm_num [fltMin])
  have hm2 : max fltMax ((7 : ℚ) / 10) = fltMax := max_eq_left (by norm_num [fltMax])
  norm_num [uvLines, matsAB, initState, runParseObj, parseObjLine, modifyTempAt,
    modifyMeshAt, Vec2.minScalar, Vec2.maxScalar, Vec2.sub, Except.bind, Except.map,
    Except.toOption, d1, d2, hm3, hm4, hm1, hm2]

/- ### C5 — position-only faces and the S1 cube -/

/-- Characters left over by a `strtoul` digit run occur in the input. -/
theorem strtoulGo_rest_subset (s : List Char) (acc : Nat) :
    ∀ c ∈ (strtoulGo s acc).2, c ∈ s := by
  induction s generalizing acc with
  | nil => simp [strtoulGo]
  | cons a rest ih =>
    intro c hc
    simp only [strtoulGo] at hc
    by_cases hd : a.isDigit
    · rw [if_pos hd] at hc
      exact List.mem_cons_of_mem a (ih _ c hc)
    · rw [if_neg hd] at hc
      exact hc

theorem strtoul_rest_subset (s : List Char) : ∀ c ∈ (strtoul s).2, c ∈ s := by
  intro c hc
  exact (List.dropWhile_sublist _).subset (strtoulGo_rest_subset _ 0 c hc)

/-- The S1 cube: 8 positions, 12 triangles, one `o` block, no `vt`/`vn`. -/
def cubeLines : List ObjLine :=
  [.o "cube",
   .v 0 0 0, .v 1 0 0, .v 1 1 0, .v 0 1 0,
   .v 0 0 1, .v 1 0 1, .v 1 1 1, .v 0 1 1,
   .f "1 3 2".toList, .f "1 4 3".toList,
   .f "5 6 7".toList, .f "5 7 8".toList,
   .f "1 2 6".toList, .f "1 6 5".toList,
   .f "2 3 7".toList, .f "2 7 6".toList,
   .f "3 4 8".toList, .f "3 8 7".toList,
   .f "4 1 5".toList, .f "4 5 8".toList]

/-- The mesh the pipeline assembles for the cube (LOD 0, no flags yet). -/
def cubeConstructed : Mesh :=
  ((runParseObj 0 (initState []) cubeLines).toOption.map
    (fun st => (ConstructVertices st.tempMeshes st.meshes).headD ({} : Mesh))).getD ({} : Mesh)

/-- C5, counterexample: for the cube, the first stored face triple is
`(0, 2^32−1, 2^32−1)` — the missing `vt`/`vn` slots are parsed as raw 0 and
the global `--u` decrement wraps them to 2^32−1, they are not "left at 0" —
and `ConstructVertices` emits 36 pre-dedup vertices (one per face-index
triple of the 12 triangles), not the 24 the claim asserts. -/
theorem C5_counterexample :
    ((runParseObj 0 (initState []) cubeLines).toOption.map
      (fun st => ((st.tempMeshes.headD ({} : TempMesh)).faceIndices.headD UVec3.zero)))
      = some ⟨0, 4294967295, 4294967295⟩ ∧
    cubeConstructed.vertices.length = 36 := by
  constructor
  · rfl
  · rfl

/-- The eight cube corners, in `v`-line order. -/
def pos1 : Vec3 := ⟨0, 0, 0⟩

def pos2 : Vec3 := ⟨1, 0, 0⟩

def pos3 : Vec3 := ⟨1, 1, 0⟩

def pos4 : Vec3 := ⟨0, 1, 0⟩

def pos5 : Vec3 := ⟨0, 0, 1⟩

def pos6 : Vec3 := ⟨1, 0, 1⟩

def pos7 : Vec3 := ⟨1, 1, 1⟩

def pos8 : Vec3 := ⟨0, 1, 1⟩

/-- A cube-soup vertex: position only, all other attributes zero (the
out-of-bounds `vt`/`vn` reads of `ConstructVertices` modelled as zero). -/
def corner (p : Vec3) : Vertex := { position := p }

/-- The 36 vertices `ConstructVertices` assembles for the cube. -/
def cubeSoupVerts : List Vertex :=
  [corner pos1, corner pos3, corner pos2, corner pos1, corner pos4, corner pos3,
   corner pos5, corner pos6, corner pos7, corner pos5, corner pos7, corner pos8,
   corner pos1, corner pos2, corner pos6, corner pos1, corner pos6, corner pos5,
   corner pos2, corner pos3, corner pos7, corner pos2, corner pos7, corner pos6,
   corner pos3, corner pos4, corner pos8, corner pos3, corner pos8, corner pos7,
   corner pos4, corner pos1, corner pos5, corner pos4, corner pos5, corner pos8]

/-- The assembled cube mesh, explicitly. -/
def cubeSoup : Mesh :=
  { name := "cube", material := "", lodLevel := 0, meshNumber := 0,
    vertices := cubeSoupVerts, indices := List.range 36 }

/-- C5, amended: face tokens without a `/` leave the `vt`/`vn` slots at raw
0 (first conjunct, for every token text); for the cube, the parser stores
every such slot wrapped to 2^32−1 while the temp normal array is empty (so
every `vn` read of `ConstructVertices` is out of bounds — modelled as the
zero vector); `ConstructVertices` emits 36 vertices with zero normals and
texture coordinates and the sequential indices `0…35`; after `JoinIdentical`
the mesh has 8 vertices and 36 indices. -/
theorem C5_amended :
    (∀ s : List Char, '/' ∉ s → (parseFaceToken s).1.y = 0 ∧ (parseFaceToken s).1.z = 0) ∧
    (((runParseObj 0 (initState []) cubeLines).toOption.map
      (fun st => ((st.tempMeshes.headD ({} : TempMesh)).normals.length,
        (st.tempMeshes.headD ({} : TempMesh)).faceIndices.all
          (fun t => t.y == 4294967295 && t.z == 4294967295))))
      = some (0, true)) ∧
    cubeConstructed = cubeSoup ∧
    cubeConstructed.vertices.all
      (fun v => v.normal == Vec3.zero && v.texCoords == Vec2.zero) = true ∧
    (joinMesh cubeConstructed).vertices.length = 8 ∧
    (joinMesh cubeConstructed).indices.length = 36 := by
  have hsoup : cubeConstructed = cubeSoup := by rfl
  have hrefs : cubeSoup.indices.map (fun i => cubeSoup.vertices.getD i ({} : Vertex))
      = cubeSoupVerts := by rfl
  have hjoin := joinGo_spec cubeSoup.vertices cubeSoup.indices [] []
  rw [hrefs] at hjoin
  have hne : cubeSoup.vertices.isEmpty = false := by rfl
  have hreps : (repsFold cubeSoupVerts).length = 8 := by
    norm_num [cubeSoupVerts, repsFold, addRep, keyMatch, vertexEqual, tolEps,
      corner, pos1, pos2, pos3, pos4, pos5, pos6, pos7, pos8,
      Vec3.zero, Vec2.zero, Vec4.zero]
  refine ⟨?_, by rfl, hsoup, by rfl, ?_, ?_⟩
  · intro s h
    unfold parseFaceToken
    rcases hr : strtoul s with ⟨v, r1⟩
    have hmem : ∀ c ∈ r1, c ∈ s := by
      intro c hc
      exact strtoul_rest_subset s c (by rw [hr]; exact hc)
    match r1, hmem with
    | [], _ => simp
    | c :: rest, hmem =>
      have hc : ¬ (c = '/') := by
        intro hcc
        exact h (hcc ▸ hmem c (by simp))
      simp [hc]
  · rw [hsoup]
    unfold joinMesh
    rw [hne]
    simp only [Bool.false_eq_true, if_false]
    rw [show (joinGo cubeSoup.vertices cubeSoup.indices [] [] []).1
        = cubeSoupVerts.foldl addRep [] from hjoin.1]
    exact hreps
  · rw [hsoup]
    unfold joinMesh
    rw [hne]
    simp only [Bool.false_eq_true, if_false]
    rw [show (joinGo cubeSoup.vertices cubeSoup.indices [] [] []).2.length
        = [].length + cubeSoup.indices.length from hjoin.2]
    rfl

/-- C5 witness: the no-slash token lemma at the concrete token `"5"`. -/
theorem C5_amended_witness :
    (parseFaceToken "5".toList).1.y = 0 ∧ (parseFaceToken "5".toList).1.z = 0 :=
  C5_amended.1 "5".toList (by decide)

/- ### Shared machinery for C6 and C10: how the second pass of `ParseObj`
tracks objects, and when its mesh-container accesses are in bounds -/

/-- The data lines of the second pass: those whose handler goes through the
current mesh index (`v `, `vt`, `vn`, `usemtl`, `f `). -/
def dataLine : ObjLine → Bool
  | .v _ _ _ => true
  | .vt _ _ => true
  | .vn _ _ _ => true
  | .usemtl _ => true
  | .f _ => true
  | _ => false

/-- The precondition of the claim: before the first `o ` line of the buffer
there is no data line. -/
def oFirst : List ObjLine → Bool
  | [] => true
  | .o _ :: _ => true
  | l :: r => !dataLine l && oFirst r

/-- Whether a line actually performs a `tempMeshes`/`meshes` access at the
current mesh index: `v `/`vt`/`vn`/`usemtl` always do; an `f ` line does so
only when it stores triples, i.e. when it parses three or four tokens. -/
def accessesTemp : ObjLine → Bool
  | .v _ _ _ => true
  | .vt _ _ => true
  | .vn _ _ _ => true
  | .usemtl _ => true
  | .f s => !(storedTriples UVec3.zero (rawFaceTokens s)).isEmpty
  | _ => false

/-- Whether some line before the first `o ` line performs a mesh-container
access (and hence would hit index −1). -/
def badAccessPreO : List ObjLine → Bool
  | [] => false
  | .o _ :: _ => false
  | l :: r => accessesTemp l || badAccessPreO r

/-- Raw token lists of the `f ` lines before the next `o ` line. -/
def curTokens : List ObjLine → List (List UVec3)
  | [] => []
  | .o _ :: _ => []
  | .f s :: r => rawFaceTokens s :: curTokens r
  | _ :: r => curTokens r

/-- Per-object raw token lists: one entry per `o ` line, holding the token
lists of that object's `f ` lines. -/
def tokenSegs : List ObjLine → List (List (List UVec3))
  | [] => []
  | .o _ :: r => curTokens r :: tokenSegs r
  | _ :: r => tokenSegs r

/-- The stored face triples of each object as the second pass produces them:
at each `o ` line the next object's offset is the running componentwise
maximum `mx` of all raw triples seen so far; each `f ` line updates `mx`
with its raw triples. -/
def segStored (mx : UVec3) : List ObjLine → List (List UVec3)
  | [] => []
  | .o _ :: r => (curTokens r).flatMap (storedTriples mx) :: segStored mx r
  | .f s :: r => segStored ((rawFaceTokens s).foldl UVec3.max mx) r
  | _ :: r => segStored mx r

/-- The claim's per-object offset: the componentwise maximum of all raw
1-based token triples of the objects before `k`, starting from `(0,0,0)`. -/
def claimOffset (ls : List ObjLine) (k : Nat) : UVec3 :=
  (((tokenSegs ls).take k).flatten.flatten).foldl UVec3.max UVec3.zero

/-- Well-formedness of the second-pass state once at least one object is
open: the mesh index addresses the last slot of the parallel `tempMeshes`
and `meshes` vectors. -/
def WF (st : ParseObjState) : Prop :=
  st.meshCount = (st.tempMeshes.length : Int) - 1 ∧
  st.meshes.length = st.tempMeshes.length ∧
  1 ≤ st.tempMeshes.length

/-- The state shape before any `o ` line, as far as the error behaviour is
concerned. -/
def PreErr (st : ParseObjState) : Prop :=
  st.meshCount = -1 ∧ st.indexOffset = UVec3.zero

/-- The full initial shape before any `o ` line (`initState` and everything
reachable from it by `mtllib`/comment lines). -/
def PreSt (st : ParseObjState) : Prop :=
  st.meshCount = -1 ∧ st.tempMeshes = [] ∧ st.meshes = [] ∧
  st.indexOffset = UVec3.zero ∧ st.maxIndexSeen = UVec3.zero

/- List helpers used to track the last `tempMeshes` slot. -/

theorem set_last_eq (xs : List α) (y : α) (h : xs ≠ []) :
    xs.set (xs.length - 1) y = xs.dropLast ++ [y] := by
  induction xs with
  | nil => cases h rfl
  | cons a rest ih =>
    cases rest with
    | nil => simp
    | cons b t =>
      simp only [List.length_cons, Nat.add_sub_cancel, List.set_cons_succ,
        List.dropLast_cons₂, List.cons_append, List.cons.injEq, true_and]
      have := ih (by simp)
      simpa using this

theorem getD_last_eq (xs : List α) (d : α) (h : xs ≠ []) :
    xs.getD (xs.length - 1) d = xs.getLastD d := by
  induction xs with
  | nil => cases h rfl
  | cons a rest ih =>
    cases rest with
    | nil => simp
    | cons b t =>
      simp only [List.length_cons, Nat.add_sub_cancel, List.getD_cons_succ]
      rw [show (b :: t).length = (b :: t).length - 1 + 1 from by simp] at ih
      simpa using ih (by simp)

theorem dropLast_append_getLastD (xs : List α) (h : xs ≠ []) :
    ∀ d, xs.dropLast ++ [xs.getLastD d] = xs := by
  induction xs with
  | nil => cases h rfl
  | cons a rest ih =>
    intro d
    cases rest with
    | nil => simp
    | cons b t =>
      rw [List.getLastD_cons]
      simp only [List.dropLast_cons₂, List.cons_append]
      exact congrArg (a :: ·) (ih (by simp) a)

theorem getD_map_fi (xs : List TempMesh) (k : Nat) :
    ((xs.map (fun t => t.faceIndices)).getD k [])
      = (xs.getD k ({} : TempMesh)).faceIndices := by
  induction xs generalizing k with
  | nil => simp [List.getD]
  | cons a rest ih =>
    cases k with
    | zero => simp
    | succ n => simpa using ih n

theorem myMap_dropLast (f : α → β) (xs : List α) :
    xs.dropLast.map f = (xs.map f).dropLast := by
  induction xs with
  | nil => simp
  | cons a rest ih =>
    cases rest with
    | nil => simp
    | cons b t =>
      simp only [List.dropLast_cons₂, List.map_cons]
      exact congrArg (f a :: ·) (by simpa using ih)

theorem myMap_getLastD (f : α → β) (xs : List α) :
    ∀ d, (xs.map f).getLastD (f d) = f (xs.getLastD d) := by
  induction xs with
  | nil => intro d; simp
  | cons a rest ih =>
    intro d
    rw [List.map_cons, List.getLastD_cons, List.getLastD_cons]
    exact ih a

theorem getLastD_concat (xs : List α) (y : α) : ∀ d, (xs ++ [y]).getLastD d = y := by
  induction xs with
  | nil => intro d; simp
  | cons a rest ih =>
    intro d
    rw [List.cons_append, List.getLastD_cons]
    exact ih a

theorem length_dropLast_append (xs : List α) (x : α) (h : xs ≠ []) :
    (xs.dropLast ++ [x]).length = xs.length := by
  have hx : xs.length ≠ 0 := fun hc => h (List.length_eq_zero.mp hc)
  simp only [List.length_append, List.length_dropLast, List.length_cons, List.length_nil]
  omega

/-- Under `WF`, the write through `tempMeshes[meshCount]` succeeds and
modifies the last scratch slot. -/
theorem modifyTempAt_WF (st : ParseObjState) (fn : TempMesh → TempMesh) (h : WF st) :
    modifyTempAt st fn = .ok { st with tempMeshes :=
      st.tempMeshes.dropLast ++ [fn (st.tempMeshes.getLastD ({} : TempMesh))] } := by
  obtain ⟨h1, h2, h3⟩ := h
  have hne : st.tempMeshes ≠ [] := by
    intro hc
    rw [hc] at h3
    simp at h3
  have hc0 : 0 ≤ st.meshCount := by omega
  have hc1 : st.meshCount.toNat < st.tempMeshes.length := by omega
  unfold modifyTempAt
  rw [if_pos ⟨hc0, hc1⟩]
  have hidx : st.meshCount.toNat = st.tempMeshes.length - 1 := by omega
  rw [hidx, set_last_eq _ _ hne, getD_last_eq _ _ hne]

/-- Under `WF`, the write through `meshes[meshCount]` succeeds and modifies
the last mesh. -/
theorem modifyMeshAt_WF (st : ParseObjState) (fn : Mesh → Mesh) (h : WF st) :
    modifyMeshAt st fn = .ok { st with meshes :=
      st.meshes.dropLast ++ [fn (st.meshes.getLastD ({} : Mesh))] } := by
  obtain ⟨h1, h2, h3⟩ := h
  have hne : st.meshes ≠ [] := by
    intro hc
    rw [hc] at h2
    simp at h2
    omega
  have hc0 : 0 ≤ st.meshCount := by omega
  have hc1 : st.meshCount.toNat < st.meshes.length := by omega
  unfold modifyMeshAt
  rw [if_pos ⟨hc0, hc1⟩]
  have hidx : st.meshCount.toNat = st.meshes.length - 1 := by omega
  rw [hidx, set_last_eq _ _ hne, getD_last_eq _ _ hne]

/-- The central characterisation of the second pass from any well-formed
state: it never goes out of bounds, and the stored face triples are the
existing ones, the current object extended by the pending `f` lines rebased
with the current offset, then one list per later object whose offset is the
running maximum carried at its `o` line. -/
theorem runParseObj_run (lod : Nat) (rest : List ObjLine) :
    ∀ st : ParseObjState, WF st →
      ∃ st', runParseObj lod st rest = .ok st' ∧ WF st' ∧
        st'.tempMeshes.map (fun t => t.faceIndices)
          = (st.tempMeshes.map (fun t => t.faceIndices)).dropLast
            ++ [(st.tempMeshes.map (fun t => t.faceIndices)).getLastD []
                ++ (curTokens rest).flatMap (storedTriples st.indexOffset)]
            ++ segStored st.maxIndexSeen rest := by
  induction rest with
  | nil =>
    intro st hwf
    refine ⟨st, rfl, hwf, ?_⟩
    have hne : st.tempMeshes.map (fun t => t.faceIndices) ≠ [] := by
      have h3 := hwf.2.2
      intro hc
      rw [List.map_eq_nil_iff] at hc
      rw [hc] at h3
      simp at h3
    simp only [curTokens, segStored, List.flatMap_nil, List.append_nil]
    exact (dropLast_append_getLastD _ hne []).symm
  | cons l r ih =>
    intro st hwf
    have hne : st.tempMeshes ≠ [] := by
      have h3 := hwf.2.2
      intro hc
      rw [hc] at h3
      simp at h3
    have hl : (st.tempMeshes.getLastD ({} : TempMesh)).faceIndices
        = (st.tempMeshes.map (fun t => t.faceIndices)).getLastD [] :=
      (myMap_getLastD (fun t => t.faceIndices) st.tempMeshes ({} : TempMesh)).symm
    cases l with
    | o name =>
      simp only [runParseObj, parseObjLine, Except.bind]
      obtain ⟨st', hrun, hwf', hmap⟩ := ih
        { st with
          meshCount := st.meshCount + 1
          tempMeshes := st.tempMeshes ++ [{}]
          meshes := st.meshes ++
            [{ name := name, meshNumber := st.meshCount + 1, lodLevel := lod }]
          indexOffset := st.maxIndexSeen }
        (by
          obtain ⟨h1, h2, h3⟩ := hwf
          refine ⟨?_, ?_, ?_⟩ <;>
            simp only [List.length_append, List.length_cons, List.length_nil] <;> omega)
      rw [hrun]
      refine ⟨st', rfl, hwf', ?_⟩
      rw [hmap]
      simp only [List.map_append, List.map_cons, List.map_nil, List.dropLast_concat,
        getLastD_concat, curTokens, segStored, List.flatMap_nil, List.append_nil,
        List.nil_append]
      rw [dropLast_append_getLastD _ (by simpa using hne) []]
      simp [List.append_assoc]
    | v x y z =>
      simp only [runParseObj, parseObjLine]
      rw [modifyTempAt_WF st _ hwf]
      simp only [Except.bind]
      obtain ⟨st', hrun, hwf', hmap⟩ := ih
        { st with tempMeshes := st.tempMeshes.dropLast ++
            [{ st.tempMeshes.getLastD ({} : TempMesh) with
                vertices := (st.tempMeshes.getLastD ({} : TempMesh)).vertices ++ [⟨x, y, z⟩] }] }
        (by
          obtain ⟨h1, h2, h3⟩ := hwf
          refine ⟨?_, ?_, ?_⟩ <;>
            simp only [List.length_append, List.length_dropLast, List.length_cons,
              List.length_nil] <;> omega)
      rw [hrun]
      refine ⟨st', rfl, hwf', ?_⟩
      rw [hmap]
      simp only [List.map_append, List.map_cons, List.map_nil, ← myMap_dropLast,
        List.dropLast_concat, getLastD_concat, curTokens, segStored]
      rw [myMap_dropLast, hl]
    | vn x y z =>
      simp only [runParseObj, parseObjLine]
      rw [modifyTempAt_WF st _ hwf]
      simp only [Except.bind]
      obtain ⟨st', hrun, hwf', hmap⟩ := ih
        { st with tempMeshes := st.tempMeshes.dropLast ++
            [{ st.tempMeshes.getLastD ({} : TempMesh) with
                normals := (st.tempMeshes.getLastD ({} : TempMesh)).normals ++ [⟨x, y, z⟩] }] }
        (by
          obtain ⟨h1, h2, h3⟩ := hwf
          refine ⟨?_, ?_, ?_⟩ <;>
            simp only [List.length_append, List.length_dropLast, List.length_cons,
              List.length_nil] <;> omega)
      rw [hrun]
      refine ⟨st', rfl, hwf', ?_⟩
      rw [hmap]
      simp only [List.map_append, List.map_cons, List.map_nil, ← myMap_dropLast,
        List.dropLast_concat, getLastD_concat, curTokens, segStored]
      rw [myMap_dropLast, hl]
    | vt u v =>
      simp only [runParseObj, parseObjLine]
      rw [modifyTempAt_WF st _ hwf]
      simp only [Except.map, Except.bind]
      obtain ⟨st', hrun, hwf', hmap⟩ := ih
        { st with
          tempMeshes := st.tempMeshes.dropLast ++
            [{ st.tempMeshes.getLastD ({} : TempMesh) with
                texCoords := (st.tempMeshes.getLastD ({} : TempMesh)).texCoords
                  ++ [⟨u, 1 - v⟩] }]
          uvMin := (st.uvMin.minScalar u)
          uvMax := (st.uvMax.maxScalar (1 - v)) }
        (by
          obtain ⟨h1, h2, h3⟩ := hwf
          refine ⟨?_, ?_, ?_⟩ <;>
            simp only [List.length_append, List.length_dropLast, List.length_cons,
              List.length_nil] <;> omega)
      rw [hrun]
      refine ⟨st', rfl, hwf', ?_⟩
      rw [hmap]
      simp only [List.map_append, List.map_cons, List.map_nil, ← myMap_dropLast,
        List.dropLast_concat, getLastD_concat, curTokens, segStored]
      rw [myMap_dropLast, hl]
    | usemtl name =>
      simp only [runParseObj, parseObjLine]
      rw [modifyMeshAt_WF st _ hwf]
      simp only [Except.map, Except.bind]
      obtain ⟨st', hrun, hwf', hmap⟩ := ih
        { st with
          meshes := st.meshes.dropLast ++
            [{ st.meshes.getLastD ({} : Mesh) with material := name }]
          materials := st.materials.set st.mtlCount
            { st.materials.getD st.mtlCount ({} : Material) with
                isTiled := decide (1 < (st.uvMax.sub st.uvMin).x)
                  || decide (1 < (st.uvMax.sub st.uvMin).y) }
          uvMax := ⟨fltMax, fltMax⟩
          uvMin := ⟨fltMin, fltMin⟩
          mtlCount := st.mtlCount + 1 }
        (by
          obtain ⟨h1, h2, h3⟩ := hwf
          have hms : st.meshes ≠ [] := by
            intro hc
            rw [hc] at h2
            simp at h2
            omega
          refine ⟨?_, ?_, ?_⟩ <;>
            simp only [List.length_append, List.length_dropLast, List.length_cons,
              List.length_nil] <;> omega)
      rw [hrun]
      refine ⟨st', rfl, hwf', ?_⟩
      rw [hmap]
      simp only [curTokens, segStored]
    | mtllib name =>
      simp only [runParseObj, parseObjLine, Except.bind]
      obtain ⟨st', hrun, hwf', hmap⟩ := ih { st with mtlFileName := name } hwf
      rw [hrun]
      refine ⟨st', rfl, hwf', ?_⟩
      rw [hmap]
      simp only [curTokens, segStored]
    | other =>
      simp only [runParseObj, parseObjLine, Except.bind]
      obtain ⟨st', hrun, hwf', hmap⟩ := ih st hwf
      rw [hrun]
      refine ⟨st', rfl, hwf', ?_⟩
      rw [hmap]
      simp only [curTokens, segStored]
    | f s =>
      simp only [runParseObj, parseObjLine]
      by_cases hemp : (storedTriples st.indexOffset (rawFaceTokens s)).isEmpty
      · rw [if_pos hemp]
        simp only [Except.bind]
        obtain ⟨st', hrun, hwf', hmap⟩ := ih
          { st with maxIndexSeen := (rawFaceTokens s).foldl UVec3.max st.maxIndexSeen }
          hwf
        rw [hrun]
        refine ⟨st', rfl, hwf', ?_⟩
        rw [hmap]
        simp only [curTokens, segStored, List.flatMap_cons]
        rw [List.isEmpty_iff.mp hemp]
        simp
      · rw [if_neg hemp]
        rw [modifyTempAt_WF { st with
            maxIndexSeen := (rawFaceTokens s).foldl UVec3.max st.maxIndexSeen } _ hwf]
        simp only [Except.bind]
        obtain ⟨st', hrun, hwf', hmap⟩ := ih
          { st with
            maxIndexSeen := (rawFaceTokens s).foldl UVec3.max st.maxIndexSeen
            tempMeshes := st.tempMeshes.dropLast ++
              [{ st.tempMeshes.getLastD ({} : TempMesh) with
                  faceIndices := (st.tempMeshes.getLastD ({} : TempMesh)).faceIndices
                    ++ storedTriples st.indexOffset (rawFaceTokens s) }] }
          (by
            obtain ⟨h1, h2, h3⟩ := hwf
            refine ⟨?_, ?_, ?_⟩ <;>
              simp only [List.length_append, List.length_dropLast, List.length_cons,
                List.length_nil] <;> omega)
        rw [hrun]
        refine ⟨st', rfl, hwf', ?_⟩
        rw [hmap]
        simp only [List.map_append, List.map_cons, List.map_nil, ← myMap_dropLast,
          List.dropLast_concat, getLastD_concat, curTokens, segStored, List.flatMap_cons]
        rw [myMap_dropLast, hl]
        simp [List.append_assoc]

/-- Starting at the initial state, a buffer whose first data line comes
after an `o` line parses without any out-of-bounds access, and the stored
face triples are `segStored` from zero. -/
theorem runParseObj_oFirst (lod : Nat) :
    ∀ ls : List ObjLine, oFirst ls = true →
    ∀ st : ParseObjState, PreSt st →
      ∃ st', runParseObj lod st ls = .ok st' ∧
        st'.tempMeshes.map (fun t => t.faceIndices) = segStored UVec3.zero ls := by
  intro ls
  induction ls with
  | nil =>
    intro _ st hst
    exact ⟨st, rfl, by rw [hst.2.1]; simp [segStored]⟩
  | cons l r ih =>
    intro hof st hst
    obtain ⟨hm, ht, hms, ho, hx⟩ := hst
    cases l with
    | o name =>
      simp only [runParseObj, parseObjLine, Except.bind]
      obtain ⟨st', hrun, _, hmap⟩ := runParseObj_run lod r
        { st with
          meshCount := st.meshCount + 1
          tempMeshes := st.tempMeshes ++ [{}]
          meshes := st.meshes ++
            [{ name := name, meshNumber := st.meshCount + 1, lodLevel := lod }]
          indexOffset := st.maxIndexSeen }
        (by
          refine ⟨?_, ?_, ?_⟩ <;>
            simp only [hm, ht, hms, List.length_append, List.length_cons, List.length_nil,
              List.nil_append] <;> omega)
      rw [hrun]
      refine ⟨st', rfl, ?_⟩
      rw [hmap]
      simp only [ht, hx, List.nil_append, List.map_cons, List.map_nil, List.dropLast_single,
        List.getLastD_cons, List.getLastD_nil, segStored, List.nil_append]
      simp
    | v x y z => simp [oFirst, dataLine] at hof
    | vt u v => simp [oFirst, dataLine] at hof
    | vn x y z => simp [oFirst, dataLine] at hof
    | usemtl name => simp [oFirst, dataLine] at hof
    | f s => simp [oFirst, dataLine] at hof
    | mtllib name =>
      simp only [runParseObj, parseObjLine, Except.bind]
      have hof' : oFirst r = true := by
        simp [oFirst, dataLine] at hof
        exact hof
      obtain ⟨st', hrun, hmap⟩ := ih hof' { st with mtlFileName := name }
        ⟨hm, ht, hms, ho, hx⟩
      rw [hrun]
      exact ⟨st', rfl, by rw [hmap]; simp [segStored]⟩
    | other =>
      simp only [runParseObj, parseObjLine, Except.bind]
      have hof' : oFirst r = true := by
        simp [oFirst, dataLine] at hof
        exact hof
      obtain ⟨st', hrun, hmap⟩ := ih hof' st ⟨hm, ht, hms, ho, hx⟩
      rw [hrun]
      exact ⟨st', rfl, by rw [hmap]; simp [segStored]⟩

/-- The running-maximum offsets of `segStored` are the claim's formula: the
offset of object `k` is the componentwise maximum of the raw triples of the
`f` lines before the first `o` line and of the objects before `k`. -/
theorem segStored_claim (ls : List ObjLine) : ∀ mx : UVec3,
    (segStored mx ls).length = (tokenSegs ls).length ∧
    ∀ k, (segStored mx ls).getD k []
      = ((tokenSegs ls).getD k []).flatMap
          (storedTriples
            (((curTokens ls ++ ((tokenSegs ls).take k).flatten).flatten).foldl UVec3.max mx)) := by
  induction ls with
  | nil =>
    intro mx
    refine ⟨rfl, fun k => ?_⟩
    simp [segStored, tokenSegs, List.getD]
  | cons l r ih =>
    intro mx
    cases l with
    | o name =>
      refine ⟨by simp [segStored, tokenSegs, (ih mx).1], fun k => ?_⟩
      cases k with
      | zero =>
        simp [segStored, tokenSegs, curTokens]
      | succ n =>
        have hn := (ih mx).2 n
        simp only [segStored, tokenSegs, curTokens, List.getD_cons_succ, List.take_succ_cons,
          List.nil_append, List.flatten_cons]
        exact hn
    | f s =>
      refine ⟨by simpa [segStored, tokenSegs] using (ih ((rawFaceTokens s).foldl UVec3.max mx)).1,
        fun k => ?_⟩
      have hn := (ih ((rawFaceTokens s).foldl UVec3.max mx)).2 k
      simp only [segStored, tokenSegs, curTokens, List.cons_append, List.flatten_cons,
        List.foldl_append]
      exact hn
    | v x y z =>
      exact ⟨by simp [segStored, tokenSegs, (ih mx).1],
        fun k => by simpa [segStored, tokenSegs, curTokens] using (ih mx).2 k⟩
    | vt u v =>
      exact ⟨by simp [segStored, tokenSegs, (ih mx).1],
        fun k => by simpa [segStored, tokenSegs, curTokens] using (ih mx).2 k⟩
    | vn x y z =>
      exact ⟨by simp [segStored, tokenSegs, (ih mx).1],
        fun k => by simpa [segStored, tokenSegs, curTokens] using (ih mx).2 k⟩
    | usemtl name =>
      exact ⟨by simp [segStored, tokenSegs, (ih mx).1],
        fun k => by simpa [segStored, tokenSegs, curTokens] using (ih mx).2 k⟩
    | mtllib name =>
      exact ⟨by simp [segStored, tokenSegs, (ih mx).1],
        fun k => by simpa [segStored, tokenSegs, curTokens] using (ih mx).2 k⟩
    | other =>
      exact ⟨by simp [segStored, tokenSegs, (ih mx).1],
        fun k => by simpa [segStored, tokenSegs, curTokens] using (ih mx).2 k⟩

/-- Under the `o`-first precondition there is no `f` line before the first
`o` line. -/
theorem oFirst_curTokens : ∀ ls : List ObjLine, oFirst ls = true → curTokens ls = [] := by
  intro ls
  induction ls with
  | nil => intro _; rfl
  | cons l r ih =>
    intro h
    cases l with
    | o _ => rfl
    | v x y z => simp [oFirst, dataLine] at h
    | vt u v => simp [oFirst, dataLine] at h
    | vn x y z => simp [oFirst, dataLine] at h
    | usemtl name => simp [oFirst, dataLine] at h
    | f s => simp [oFirst, dataLine] at h
    | mtllib name =>
      simp only [curTokens]
      refine ih ?_
      simp [oFirst, dataLine] at h
      exact h
    | other =>
      simp only [curTokens]
      refine ih ?_
      simp [oFirst, dataLine] at h
      exact h

/-- When some line before the first `o` line performs a mesh-container
access, the second pass fails at index −1. -/
theorem runParseObj_badAccess (lod : Nat) :
    ∀ ls : List ObjLine, badAccessPreO ls = true →
    ∀ st : ParseObjState, PreErr st →
      runParseObj lod st ls = .error (-1) := by
  intro ls
  induction ls with
  | nil => intro h; cases h
  | cons l r ih =>
    intro h st hpre
    obtain ⟨hm, ho⟩ := hpre
    have hcond : ¬ (0 ≤ st.meshCount ∧ st.meshCount.toNat < st.tempMeshes.length) := by
      intro hc
      rw [hm] at hc
      omega
    have hcondM : ¬ (0 ≤ st.meshCount ∧ st.meshCount.toNat < st.meshes.length) := by
      intro hc
      rw [hm] at hc
      omega
    cases l with
    | o name => simp [badAccessPreO] at h
    | v x y z =>
      simp only [runParseObj, parseObjLine]
      unfold modifyTempAt
      rw [if_neg hcond, hm]
      rfl
    | vn x y z =>
      simp only [runParseObj, parseObjLine]
      unfold modifyTempAt
      rw [if_neg hcond, hm]
      rfl
    | vt u v =>
      simp only [runParseObj, parseObjLine]
      unfold modifyTempAt
      rw [if_neg hcond, hm]
      rfl
    | usemtl name =>
      simp only [runParseObj, parseObjLine]
      unfold modifyMeshAt
      rw [if_neg hcondM, hm]
      rfl
    | mtllib name =>
      simp only [runParseObj, parseObjLine, Except.bind]
      have hr : badAccessPreO r = true := by
        simpa [badAccessPreO, accessesTemp] using h
      exact ih hr { st with mtlFileName := name } ⟨hm, ho⟩
    | other =>
      simp only [runParseObj, parseObjLine, Except.bind]
      have hr : badAccessPreO r = true := by
        simpa [badAccessPreO, accessesTemp] using h
      exact ih hr st ⟨hm, ho⟩
    | f s =>
      simp only [runParseObj, parseObjLine]
      by_cases hemp : (storedTriples st.indexOffset (rawFaceTokens s)).isEmpty
      · rw [if_pos hemp]
        simp only [Except.bind]
        rw [ho] at hemp
        have hr : badAccessPreO r = true := by
          simp only [badAccessPreO, accessesTemp, hemp, Bool.not_true, Bool.false_or] at h
          exact h
        exact ih hr
          { st with maxIndexSeen := (rawFaceTokens s).foldl UVec3.max st.maxIndexSeen }
          ⟨hm, ho⟩
      · rw [if_neg hemp]
        unfold modifyTempAt
        rw [if_neg hcond, hm]
        rfl

/-- The S3-style two-object buffer used for the C6 witness: the second
object's face indices continue the global 1-based numbering (`4 5 6`) and
must be rebased by the carried maximum `(3,0,0)`. -/
def lsW : List ObjLine :=
  [.o "a", .f "1 2 3".toList, .o "b", .f "4 5 6".toList]

/- ### C6 — per-object index rebasing -/

/-- C6: for every buffer satisfying the `o`-first precondition, the second
pass succeeds and, for every object `k`, the stored face triples are the raw
1-based triples of that object's `f` lines decremented by one componentwise
and rebased by the per-object offset `O` (all mod 2^32, the `glm::uvec3`
arithmetic), where `O` is the componentwise maximum `M` of all raw triples
seen in prior objects, `M` starting at zero and being updated with the
componentwise maxima of the raw triples. -/
theorem C6_rebase (lod : Nat) (mats : List Material) (ls : List ObjLine)
    (h : oFirst ls = true) :
    ∃ st', runParseObj lod (initState mats) ls = .ok st' ∧
      st'.tempMeshes.length = (tokenSegs ls).length ∧
      ∀ k, (st'.tempMeshes.getD k ({} : TempMesh)).faceIndices
          = ((tokenSegs ls).getD k []).flatMap (storedTriples (claimOffset ls k)) := by
  obtain ⟨st', hrun, hmap⟩ := runParseObj_oFirst lod ls h (initState mats)
    ⟨rfl, rfl, rfl, rfl, rfl⟩
  refine ⟨st', hrun, ?_, ?_⟩
  · have hlen := congrArg List.length hmap
    rw [List.length_map] at hlen
    rw [hlen, (segStored_claim ls UVec3.zero).1]
  · intro k
    have hpt := (segStored_claim ls UVec3.zero).2 k
    rw [oFirst_curTokens ls h, List.nil_append] at hpt
    rw [← getD_map_fi, hmap, hpt]
    rfl

/-- C6 witness: on the two-object buffer, the second object's stored triples
computed by the parser equal the claim's formula (raw − 1 − (3,0,0)
componentwise mod 2^32). -/
theorem C6_rebase_witness :
    ((runParseObj 0 (initState []) lsW).toOption.map
        (fun st => (st.tempMeshes.getD 1 ({} : TempMesh)).faceIndices)).getD []
      = ((tokenSegs lsW).getD 1 []).flatMap (storedTriples (claimOffset lsW 1)) := by
  obtain ⟨st', hrun, _, hpt⟩ := C6_rebase 0 [] lsW (by rfl)
  rw [hrun]
  simpa [Except.toOption] using hpt 1

/- ### C10 — bounds of the second pass -/

/-- C10, counterexample: an `f` line with only two index tokens is a data
line preceding any `o` line, yet the second pass performs no mesh-container
access for it (no triple is stored for a two-token face), so the run
succeeds instead of accessing index −1. -/
theorem C10_counterexample :
    oFirst [ObjLine.f "1 2".toList] = false ∧
    (runParseObj 0 (initState []) [ObjLine.f "1 2".toList]).toOption.isSome = true := by
  exact ⟨rfl, rfl⟩

/-- C10, amended: (i) whenever an `o` line precedes the first data line,
every `tempMeshes`/`meshes` access of the second pass is in bounds and the
parse succeeds; (ii) whenever a `v`/`vt`/`vn`/`usemtl` line, or an `f` line
that stores triples (three or four tokens), occurs before any `o` line, the
second pass accesses the containers at index −1 (an `f` line with fewer than
three tokens performs no such access and is passed over). -/
theorem C10_amended :
    (∀ (lod : Nat) (mats : List Material) (ls : List ObjLine), oFirst ls = true →
        ∃ st', runParseObj lod (initState mats) ls = .ok st') ∧
    (∀ (lod : Nat) (mats : List Material) (ls : List ObjLine), badAccessPreO ls = true →
        runParseObj lod (initState mats) ls = .error (-1)) := by
  constructor
  · intro lod mats ls h
    obtain ⟨st', hrun, _⟩ := runParseObj_oFirst lod ls h (initState mats)
      ⟨rfl, rfl, rfl, rfl, rfl⟩
    exact ⟨st', hrun⟩
  · intro lod mats ls h
    exact runParseObj_badAccess lod ls h (initState mats) ⟨rfl, rfl⟩

/-- C10 witness: part (i) at a single-`o` buffer, part (ii) at a buffer
starting with a `v` line. -/
theorem C10_amended_witness :
    (runParseObj 0 (initState []) [ObjLine.o "m"]).toOption.isSome = true ∧
    runParseObj 0 (initState []) [ObjLine.v 0 0 0] = .error (-1) := by
  constructor
  · obtain ⟨st', hrun⟩ := C10_amended.1 0 [] [ObjLine.o "m"] (by rfl)
    rw [hrun]
    rfl
  · exact C10_amended.2 0 [] [ObjLine.v 0 0 0] (by rfl)

/- ### C9 — unit tangents and ±1 handedness after `CalcTangentSpace` -/

theorem normSq_nonneg3 (v : RVec3) : 0 ≤ v.normSq := by
  unfold RVec3.normSq
  positivity

theorem norm_nonneg3 (v : RVec3) : 0 ≤ v.norm := Real.sqrt_nonneg _

theorem norm_smul3 (c : ℝ) (v : RVec3) : (RVec3.smul c v).norm = |c| * v.norm := by
  unfold RVec3.norm RVec3.normSq RVec3.smul
  rw [show (c * v.x) ^ 2 + (c * v.y) ^ 2 + (c * v.z) ^ 2
      = c ^ 2 * (v.x ^ 2 + v.y ^ 2 + v.z ^ 2) by ring]
  rw [Real.sqrt_mul (sq_nonneg c), Real.sqrt_sq_eq_abs]

/-- A nonzero vector has a nonzero length. -/
theorem norm_ne_zero3 (v : RVec3) (h : v ≠ RVec3.zero) : v.norm ≠ 0 := by
  intro hc
  apply h
  unfold RVec3.norm at hc
  have hsq : v.normSq = 0 := by
    have hnn := normSq_nonneg3 v
    have := (Real.sqrt_eq_zero hnn).mp hc
    exact this
  unfold RVec3.normSq at hsq
  obtain ⟨x, y, z⟩ := v
  simp only [RVec3.zero, RVec3.mk.injEq]
  refine ⟨?_, ?_, ?_⟩ <;> nlinarith [sq_nonneg x, sq_nonneg y, sq_nonneg z]

/-- `glm::normalize` of a nonzero vector is unit length. -/
theorem normalize_norm3 (v : RVec3) (h : v ≠ RVec3.zero) : (v.normalize).norm = 1 := by
  have hnz := norm_ne_zero3 v h
  unfold RVec3.normalize
  rw [norm_smul3, abs_of_nonneg (by
    have := norm_nonneg3 v
    positivity)]
  field_simp

theorem headD_eq_getD_zero (bs : List RVec3) : bs.headD RVec3.zero = bs.getD 0 RVec3.zero := by
  cases bs <;> rfl

theorem finalizeAll_getD (vs : List RVertex) :
    ∀ (bs : List RVec3) (i : Nat), i < vs.length →
      (finalizeAll vs bs).getD i ({} : RVertex)
        = finalizeTangent (vs.getD i ({} : RVertex)) (bs.getD i RVec3.zero) := by
  induction vs with
  | nil => intro bs i hi; simp at hi
  | cons v vs ih =>
    intro bs i hi
    cases i with
    | zero =>
      simp only [finalizeAll, List.getD_cons_zero]
      rw [headD_eq_getD_zero]
    | succ n =>
      simp only [finalizeAll, List.getD_cons_succ]
      rw [ih bs.tail n (by simpa using hi)]
      congr 1
      cases bs with
      | nil => simp [List.getD]
      | cons b bs' => simp

theorem accumTri_length (s : List RVertex × List RVec3) (t : Nat × Nat × Nat) :
    (accumTri s t).1.length = s.1.length := by
  unfold accumTri
  by_cases hc : ((GetTangentCoords (s.1.getD t.1 {}) (s.1.getD t.2.1 {})
      (s.1.getD t.2.2 {})).1.norm < 1e-10 ∨
      (GetTangentCoords (s.1.getD t.1 {}) (s.1.getD t.2.1 {}) (s.1.getD t.2.2 {})).2.norm < 1e-10)
  · rw [if_pos hc]
  · rw [if_neg hc]
    simp [List.length_set]

theorem accumFold_length (l : List (Nat × Nat × Nat)) :
    ∀ s : List RVertex × List RVec3, (l.foldl accumTri s).1.length = s.1.length := by
  induction l with
  | nil => intro s; rfl
  | cons t rest ih =>
    intro s
    rw [List.foldl_cons, ih, accumTri_length]

theorem accumulateTangents_length (m : RMesh) :
    (accumulateTangents m).1.length = m.vertices.length := by
  unfold accumulateTangents
  rw [accumFold_length]

theorem getD_map_calc (ms : List RMesh) (j : Nat) (hj : j < ms.length) :
    (ms.map calcMeshTangents).getD j ({} : RMesh)
      = calcMeshTangents (ms.getD j ({} : RMesh)) := by
  rw [List.getD_eq_getElem _ _ (by simpa using hj), List.getElem_map,
    List.getD_eq_getElem _ _ hj]

/-- C9, amended: after `CalcTangentSpace`, every vertex of every processed
mesh stores a tangent whose w component is +1 or −1, with handedness
`sign(dot(cross(N, t'), B_accum))` and `sign(0) = +1`; and the xyz part is
unit length (exactly, in the real-number model) provided the Gram–Schmidt
residual of the accumulated tangent against the normal is nonzero whenever
the accumulated tangent is longer than 1e-10 — without that proviso the code
normalises the zero vector and stores a non-unit (NaN in float) tangent. -/
theorem C9_amended (ms : List RMesh) (j i : Nat) (hj : j < ms.length)
    (hi : i < (accumulateTangents (ms.getD j ({} : RMesh))).1.length)
    (hres : 1e-10 <
        ((accumulateTangents (ms.getD j ({} : RMesh))).1.getD i ({} : RVertex)).tangent.norm →
      gramResidual ((accumulateTangents (ms.getD j ({} : RMesh))).1.getD i ({} : RVertex))
        ≠ RVec3.zero) :
    ((((CalcTangentSpace ms).getD j ({} : RMesh)).vertices.getD i ({} : RVertex)).tangent.w = 1 ∨
     (((CalcTangentSpace ms).getD j ({} : RMesh)).vertices.getD i ({} : RVertex)).tangent.w = -1) ∧
    RVec3.norm ((((CalcTangentSpace ms).getD j ({} : RMesh)).vertices.getD i
      ({} : RVertex)).tangent.xyz) = 1 := by
  unfold CalcTangentSpace
  rw [getD_map_calc ms j hj]
  simp only [calcMeshTangents]
  rw [finalizeAll_getD _ _ i hi]
  generalize hv : (accumulateTangents (ms.getD j ({} : RMesh))).1.getD i ({} : RVertex) = v
    at hres
  generalize hb : (accumulateTangents (ms.getD j ({} : RMesh))).2.getD i RVec3.zero = bacc
  simp only [finalizeTangent]
  by_cases hcond : (1e-10 : ℝ) < v.tangent.norm
  · rw [if_pos hcond]
    have hr : gramResidual v ≠ RVec3.zero := hres hcond
    constructor
    · by_cases hs : ((v.normal.cross ((gramResidual v).normalize)).dot bacc) < 0
      · rw [if_pos hs]
        right
        rfl
      · rw [if_neg hs]
        left
        rfl
    · show RVec3.norm ((gramResidual v).normalize) = 1
      exact normalize_norm3 _ hr
  · rw [if_neg hcond]
    have hone : RVec3.norm ⟨1, 0, 0⟩ = 1 := by
      unfold RVec3.norm RVec3.normSq
      rw [show ((1 : ℝ) ^ 2 + 0 ^ 2 + 0 ^ 2) = 1 by norm_num, Real.sqrt_one]
    constructor
    · by_cases hs : ((v.normal.cross (⟨1, 0, 0⟩ : RVec3)).dot bacc) < 0
      · rw [if_pos hs]
        right
        rfl
      · rw [if_neg hs]
        left
        rfl
    · show RVec3.norm ⟨1, 0, 0⟩ = 1
      exact hone

/-- The S4 counterexample mesh: one triangle with positions
`(0,0,0),(1,0,0),(0,1,0)`, uv `(0,0),(1,0),(0,1)`, but normals `(1,0,0)` —
parallel to the accumulated tangent direction. -/
noncomputable def cexM : RMesh :=
  { vertices :=
      [{ position := ⟨0, 0, 0⟩, normal := ⟨1, 0, 0⟩, texCoords := ⟨0, 0⟩, tangent := ⟨0, 0, 0, 0⟩ },
       { position := ⟨1, 0, 0⟩, normal := ⟨1, 0, 0⟩, texCoords := ⟨1, 0⟩, tangent := ⟨0, 0, 0, 0⟩ },
       { position := ⟨0, 1, 0⟩, normal := ⟨1, 0, 0⟩, texCoords := ⟨0, 1⟩, tangent := ⟨0, 0, 0, 0⟩ }],
    indices := [0, 1, 2] }

/-- The S4 witness mesh: same triangle with the proper normal `(0,0,1)`. -/
noncomputable def s4M : RMesh :=
  { vertices :=
      [{ position := ⟨0, 0, 0⟩, normal := ⟨0, 0, 1⟩, texCoords := ⟨0, 0⟩, tangent := ⟨0, 0, 0, 0⟩ },
       { position := ⟨1, 0, 0⟩, normal := ⟨0, 0, 1⟩, texCoords := ⟨1, 0⟩, tangent := ⟨0, 0, 0, 0⟩ },
       { position := ⟨0, 1, 0⟩, normal := ⟨0, 0, 1⟩, texCoords := ⟨0, 1⟩, tangent := ⟨0, 0, 0, 0⟩ }],
    indices := [0, 1, 2] }

theorem accum_cexM :
    accumulateTangents cexM
      = ([{ position := ⟨0, 0, 0⟩, normal := ⟨1, 0, 0⟩, texCoords := ⟨0, 0⟩,
            tangent := ⟨1 / 2, 0, 0, 0⟩ },
          { position := ⟨1, 0, 0⟩, normal := ⟨1, 0, 0⟩, texCoords := ⟨1, 0⟩,
            tangent := ⟨1 / 2, 0, 0, 0⟩ },
          { position := ⟨0, 1, 0⟩, normal := ⟨1, 0, 0⟩, texCoords := ⟨0, 1⟩,
            tangent := ⟨1 / 2, 0, 0, 0⟩ }],
         [⟨0, 1 / 2, 0⟩, ⟨0, 1 / 2, 0⟩, ⟨0, 1 / 2, 0⟩]) := by
  unfold accumulateTangents cexM
  norm_num [tri3, accumTri, GetTangentCoords, RVec2.sub, RVec3.sub, RVec3.smul, RVec3.add,
    RVec3.cross, RVec3.dot, RVec3.norm, RVec3.normSq, RVec4.add, RVec4.smul, RVec3.zero,
    Real.sqrt_one, List.set]

theorem accum_s4M :
    accumulateTangents s4M
      = ([{ position := ⟨0, 0, 0⟩, normal := ⟨0, 0, 1⟩, texCoords := ⟨0, 0⟩,
            tangent := ⟨1 / 2, 0, 0, 0⟩ },
          { position := ⟨1, 0, 0⟩, normal := ⟨0, 0, 1⟩, texCoords := ⟨1, 0⟩,
            tangent := ⟨1 / 2, 0, 0, 0⟩ },
          { position := ⟨0, 1, 0⟩, normal := ⟨0, 0, 1⟩, texCoords := ⟨0, 1⟩,
            tangent := ⟨1 / 2, 0, 0, 0⟩ }],
         [⟨0, 1 / 2, 0⟩, ⟨0, 1 / 2, 0⟩, ⟨0, 1 / 2, 0⟩]) := by
  unfold accumulateTangents s4M
  norm_num [tri3, accumTri, GetTangentCoords, RVec2.sub, RVec3.sub, RVec3.smul, RVec3.add,
    RVec3.cross, RVec3.dot, RVec3.norm, RVec3.normSq, RVec4.add, RVec4.smul, RVec3.zero,
    Real.sqrt_one, List.set]

theorem sqrt_quarter : Real.sqrt (1 / 4) = 1 / 2 := by
  rw [show ((1 : ℝ) / 4) = (1 / 2) ^ 2 by norm_num]
  exact Real.sqrt_sq (by norm_num)

theorem sqrt_four : Real.sqrt 4 = 2 := by
  rw [show (4 : ℝ) = 2 ^ 2 by norm_num]
  exact Real.sqrt_sq (by norm_num)

/-- C9, counterexample: on the S4 triangle with normals `(1,0,0)` — parallel
to the accumulated tangent — the Gram–Schmidt residual is zero, the code
normalises the zero vector (NaN in float arithmetic, the zero vector in the
real model), and the stored tangent is `(0,0,0,1)`: its xyz part is not
within 1e-5 of unit length. -/
theorem C9_counterexample :
    (((CalcTangentSpace [cexM]).headD ({} : RMesh)).vertices.headD ({} : RVertex)).tangent
      = ⟨0, 0, 0, 1⟩ ∧
    ¬ (|RVec3.norm ((((CalcTangentSpace [cexM]).headD ({} : RMesh)).vertices.headD
        ({} : RVertex)).tangent.xyz) - 1| ≤ 1e-5) := by
  have hv : (((CalcTangentSpace [cexM]).headD ({} : RMesh)).vertices.headD ({} : RVertex)).tangent
      = ⟨0, 0, 0, 1⟩ := by
    simp only [CalcTangentSpace, List.map_cons, List.map_nil, List.headD_cons, calcMeshTangents]
    rw [accum_cexM]
    simp only [finalizeAll, List.headD_cons, List.tail_cons]
    unfold finalizeTangent gramResidual RVec3.normalize
    norm_num [RVec4.norm, RVec4.xyz, RVec3.sub, RVec3.smul, RVec3.dot, RVec3.cross, RVec3.norm,
      RVec3.normSq, RVec3.zero, sqrt_quarter, sqrt_four, Real.sqrt_zero]
  refine ⟨hv, ?_⟩
  rw [hv]
  have h0 : RVec3.norm (RVec4.xyz ⟨0, 0, 0, 1⟩) = 0 := by
    unfold RVec4.xyz RVec3.norm RVec3.normSq
    rw [show ((0 : ℝ) ^ 2 + 0 ^ 2 + 0 ^ 2) = 0 by norm_num, Real.sqrt_zero]
  rw [h0]
  norm_num

/-- C9 witness: the amended theorem at the proper S4 triangle (normal
`(0,0,1)`): the first vertex's finalised tangent has a unit xyz part and a
±1 w channel. -/
theorem C9_amended_witness :
    ((((CalcTangentSpace [s4M]).getD 0 ({} : RMesh)).vertices.getD 0
        ({} : RVertex)).tangent.w = 1 ∨
     (((CalcTangentSpace [s4M]).getD 0 ({} : RMesh)).vertices.getD 0
        ({} : RVertex)).tangent.w = -1) ∧
    RVec3.norm ((((CalcTangentSpace [s4M]).getD 0 ({} : RMesh)).vertices.getD 0
      ({} : RVertex)).tangent.xyz) = 1 := by
  refine C9_amended [s4M] 0 0 (by norm_num) ?_ ?_
  · rw [accumulateTangents_length]
    norm_num [s4M, List.getD_cons_zero]
  · intro _
    simp only [List.getD_cons_zero]
    rw [accum_s4M]
    simp only [List.getD_cons_zero]
    unfold gramResidual
    norm_num [RVec4.xyz, RVec3.sub, RVec3.smul, RVec3.dot, RVec3.zero, RVec3.mk.injEq]

end Obj
